import Mathlib

/-! # oldlogzipper: retention selection, liveness probes and compression steps

A shallow embedding of `oldlogzipper.go`.  Go strings are Lean strings (texts of
Unicode characters, `len` being the UTF-8 byte length), `time.Time` instants are
integers, and the state of the operating system that the program reads (directory
listing, working directory, process table, existing names) is passed in explicitly.
Library routines whose algorithm is not part of the repository (`sort.Slice`,
`regexp`) are parameters constrained by their documented contract.
-/

namespace OldLogZipper

/-! ## Strings and paths (`strings`, `path/filepath` on Unix) -/

/-- Go `strings.HasPrefix(s, p)`. -/
def hasPrefix (s p : String) : Bool := p.data.isPrefixOf s.data

/-- The pieces of a path between its separators (`/`); never the empty list. -/
def splitSlash : List Char → List (List Char)
  | [] => [[]]
  | c :: cs =>
    if c = '/' then [] :: splitSlash cs
    else
      match splitSlash cs with
      | [] => [[c]]
      | h :: t => (c :: h) :: t

/-- One element of `filepath.Clean`, on the stack of elements kept so far (top first):
empty and `.` elements are dropped, `..` removes the preceding non-`..` element,
is dropped at the root, and is kept at the start of a relative path. -/
def cleanStep (rooted : Bool) (stack : List (List Char)) (comp : List Char) :
    List (List Char) :=
  if comp = [] ∨ comp = ['.'] then stack
  else if comp = ['.', '.'] then
    match stack with
    | [] => if rooted then [] else [comp]
    | top :: rest => if top = ['.', '.'] then comp :: stack else rest
  else comp :: stack

/-- Go `filepath.Clean` on the characters of a path. -/
def cleanChars (path : List Char) : List Char :=
  let rooted := path.head? = some '/'
  let stack := (splitSlash path).foldl (cleanStep rooted) []
  let body := List.intercalate ['/'] stack.reverse
  let out := if rooted then '/' :: body else body
  if out = [] then ['.'] else out

/-- Go `filepath.Clean`. -/
def Clean (path : String) : String := ⟨cleanChars path.data⟩

/-- Go `filepath.Join`: leading empty elements are ignored, the rest is joined with
`/` and cleaned. -/
def Join (elem : List String) : String :=
  match elem.dropWhile (fun e => decide (e = "")) with
  | [] => ""
  | es => Clean ⟨List.intercalate ['/'] (es.map String.data)⟩

/-- Go `filepath.IsAbs` on Unix. -/
def IsAbs (path : String) : Bool := hasPrefix path "/"

/-- Go `filepath.Abs`; `cwd` is the result of `os.Getwd` (`none` when it fails). -/
def Abs (cwd : Option String) (path : String) : Option String :=
  if IsAbs path then some (Clean path)
  else
    match cwd with
    | none => none
    | some wd => some (Join [wd, path])

/-- A name that a directory listing can hold: not empty, not `.` or `..`,
without a separator. -/
def ValidName (n : String) : Prop :=
  n.data ≠ [] ∧ n.data ≠ ['.'] ∧ n.data ≠ ['.', '.'] ∧ '/' ∉ n.data

instance (n : String) : Decidable (ValidName n) := by
  unfold ValidName; infer_instance

/-! ## Data model -/

/-- A compiled pattern (`*regexp.Regexp`): its source text and `MatchString`. -/
structure Regexp where
  source : String
  matchString : String → Bool

/-- The part of `fs.FileInfo` the selection reads: `Name()` and `ModTime()`. -/
structure FileInfo where
  name : String
  modTime : Int
  deriving DecidableEq, Repr

/-- One entry of the listing of the target directory, as a snapshot: `info` is the
modification time obtained by `entry.Info()` (`none` when that call fails, the same
at every call), `isSymlink` tells `Mode()&os.ModeSymlink != 0`, and `readlink` is
the result of `os.Readlink` on the entry (`none` on error). -/
structure DirEntry where
  name : String
  isDir : Bool
  isSymlink : Bool
  readlink : Option String
  info : Option Int
  deriving DecidableEq, Repr

/-- An entry of a `/proc/<pid>/fd` listing with the result of `os.Readlink`. -/
structure FdEntry where
  name : String
  readlink : Option String
  deriving DecidableEq, Repr

/-- An entry of the `/proc` listing; `fds` is the listing of its `fd` directory
(`none` when it cannot be read, as for entries that are not processes). -/
structure ProcEntry where
  name : String
  isDir : Bool
  fds : Option (List FdEntry)
  deriving DecidableEq, Repr

/-- What the program observes of the system for one target directory. -/
structure Env where
  cwd : Option String
  listing : Option (List DirEntry)
  procs : Option (List ProcEntry)

/-- Ways in which the program stops without returning. -/
inductive Fault where
  | fatal
  | panic
  deriving DecidableEq, Repr

deriving instance DecidableEq for Except

/-! ## `isin`, `linkedFiles`, `opendFiles` -/

/-- Source `isin`. -/
def isin (s : String) : List String → Bool
  | [] => false
  | v :: a => if s = v then true else isin s a

/-- Source `linkedFiles`: the absolute form of the destination of every symbolic
link of the listing; entries whose link cannot be read or made absolute are
skipped, an unreadable directory gives the empty list. -/
def linkedFiles (env : Env) (_dir : String) : List String :=
  match env.listing with
  | none => []
  | some files =>
    files.foldl
      (fun linkedfiles file =>
        if file.isSymlink then
          match file.readlink with
          | none => linkedfiles
          | some linkPath =>
            match Abs env.cwd linkPath with
            | none => linkedfiles
            | some absPath => linkedfiles ++ [absPath]
        else linkedfiles)
      []

/-- The descriptor loop of `opendFiles` for one process. -/
def scanFds (env : Env) (dir : String) (fds : List FdEntry) (opened : List String) :
    List String :=
  fds.foldl
    (fun opened fd =>
      match fd.readlink with
      | none => opened
      | some link =>
        match Abs env.cwd link with
        | none => opened
        | some absLink =>
          if hasPrefix absLink dir then
            (if isin absLink opened then opened else opened ++ [absLink])
          else opened)
    opened

/-- Source `opendFiles`.  The Go map of seen paths is a duplicate-free list here
(in first-seen order; the program only tests membership in the result). -/
def opendFiles (env : Env) (dir : String) : List String :=
  match env.procs with
  | none => []
  | some procs =>
    procs.foldl
      (fun opened proc =>
        if !proc.isDir then opened
        else
          match proc.fds with
          | none => opened
          | some fds => scanFds env dir fds opened)
      []

/-! ## `getMatchingFiles` -/

/-- The pattern loop for one entry (source lines 190-203), started at index `i`:
the bucket index and file information to append, if any.  A failing `Info()`
continues with the next pattern. -/
def matchLoop (entry : DirEntry) : List Regexp → Nat → Option (Nat × FileInfo)
  | [], _ => none
  | pattern :: rest, i =>
    if pattern.matchString entry.name then
      match entry.info with
      | none => matchLoop entry rest (i + 1)
      | some t => some (i, ⟨entry.name, t⟩)
    else matchLoop entry rest (i + 1)

/-- One round of the entry loop (source lines 184-207) on the buckets `files`. -/
def collectStep (patterns : List Regexp) (files : List (List FileInfo))
    (entry : DirEntry) : List (List FileInfo) :=
  if entry.isDir then files
  else
    match matchLoop entry patterns 0 with
    | some (i, fileInfo) => files.modify (fun b => b ++ [fileInfo]) i
    | none => files

/-- The buckets after the entry loop: one per pattern, in pattern order. -/
def buckets (patterns : List Regexp) (dirEntries : List DirEntry) :
    List (List FileInfo) :=
  dirEntries.foldl (collectStep patterns) (patterns.map (fun _ => []))

/-- The path the program forms for a file of the target directory. -/
def pathOf (basedir : String) (fi : FileInfo) : String := Join [basedir, fi.name]

/-- The exclusion loop over the prefix that is not retained (source lines 227-238). -/
def excludeLoop (basedir : String) (linkedFileList opendFileList : List String)
    (sortedl : List FileInfo) : List FileInfo :=
  sortedl.foldl
    (fun newl fi =>
      if isin (pathOf basedir fi) linkedFileList then newl
      else if isin (pathOf basedir fi) opendFileList then newl
      else newl ++ [fi])
    []

/-- The body of the bucket loop (source lines 212-239) for one bucket `l`, with
`srt` standing for `sort.Slice` by `ModTime().Before`.  Slicing with a negative
`keep` is out of range and panics. -/
def selectBucket (srt : List FileInfo → List FileInfo) (basedir : String) (keep : Int)
    (linkedFileList opendFileList : List String) (l : List FileInfo) :
    Except Fault (List FileInfo) :=
  if (l.length : Int) ≤ keep then .ok []
  else if keep < 0 then .error Fault.panic
  else
    .ok (excludeLoop basedir linkedFileList opendFileList
      ((srt l).take (l.length - keep.toNat)))

/-- The bucket loop (source lines 211-240) over all buckets, in order. -/
def selectAll (srt : List FileInfo → List FileInfo) (basedir : String) (keep : Int)
    (linkedFileList opendFileList : List String) :
    List (List FileInfo) → Except Fault (List (List FileInfo))
  | [] => .ok []
  | l :: rest =>
    match selectBucket srt basedir keep linkedFileList opendFileList l with
    | .error e => .error e
    | .ok newl =>
      match selectAll srt basedir keep linkedFileList opendFileList rest with
      | .error e => .error e
      | .ok done => .ok (newl :: done)

/-- The final loop (source lines 241-247): the paths of all remaining files. -/
def resultPaths (basedir : String) (files : List (List FileInfo)) : List String :=
  (files.map (fun l => l.map (pathOf basedir))).flatten

/-- Source `getMatchingFiles` from the entry loop on, for given exclusion lists and
directory listing. -/
def selectFiles (srt : List FileInfo → List FileInfo) (patterns : List Regexp)
    (basedir : String) (keep : Int) (linkedFileList opendFileList : List String)
    (dirEntries : List DirEntry) : Except Fault (List String) :=
  match selectAll srt basedir keep linkedFileList opendFileList
      (buckets patterns dirEntries) with
  | .error e => .error e
  | .ok files => .ok (resultPaths basedir files)

/-- Source `getMatchingFiles`; a directory that cannot be read is fatal. -/
def getMatchingFiles (srt : List FileInfo → List FileInfo) (env : Env) (keep : Int)
    (patterns : List Regexp) (basedir : String) : Except Fault (List String) :=
  match env.listing with
  | none => .error Fault.fatal
  | some dirEntries =>
    selectFiles srt patterns basedir keep (linkedFiles env basedir)
      (opendFiles env basedir) dirEntries

/-- The contract of `sort.Slice` with `less = ModTime().Before`: the slice is
rearranged so that no element is before an earlier one.  The order of entries with
equal times is not fixed. -/
structure SortSliceSpec (srt : List FileInfo → List FileInfo) : Prop where
  perm : ∀ l, (srt l).Perm l
  sorted : ∀ l, (srt l).Pairwise (fun a b => a.modTime ≤ b.modTime)

/-- Order of modification times, not later than. -/
def notLater (a b : FileInfo) : Prop := a.modTime ≤ b.modTime

instance : DecidableRel notLater := fun a b => inferInstanceAs (Decidable (a.modTime ≤ b.modTime))

instance : IsTotal FileInfo notLater := ⟨fun a b => le_total a.modTime b.modTime⟩

instance : IsTrans FileInfo notLater := ⟨fun _ _ _ h1 h2 => le_trans h1 h2⟩

/-- A sorting routine meeting the contract, used to run the model. -/
def insertionSortByTime (l : List FileInfo) : List FileInfo := l.insertionSort notLater

/-- What `filepath.Join` puts in front of a valid entry name, as a function of the
directory alone. -/
def joinPrefix (d : String) : List Char :=
  if d.data = [] then []
  else
    let rooted := d.data.head? = some '/'
    let stack := (splitSlash d.data).foldl (cleanStep rooted) []
    let lead := if rooted then ['/'] else []
    if stack = [] then lead else lead ++ List.intercalate ['/'] stack.reverse ++ ['/']

/-- The files that the entry loop appends to bucket `i`, in listing order. -/
def assigned (patterns : List Regexp) (i : Nat) (dirEntries : List DirEntry) :
    List FileInfo :=
  dirEntries.filterMap (fun e =>
    if e.isDir then none
    else
      match matchLoop e patterns 0 with
      | some (j, fi) => if j = i then some fi else none
      | none => none)

/-- Whether a file passes the exclusion loop. -/
def notExcluded (basedir : String) (linkedFileList opendFileList : List String)
    (fi : FileInfo) : Bool :=
  !isin (pathOf basedir fi) linkedFileList && !isin (pathOf basedir fi) opendFileList

/-! ## Sample data -/

/-- A pattern standing for `app\.log\.\d+`: the prefix `app.log.` and then digits. -/
def appLogPattern : Regexp :=
  ⟨"app\\.log\\.\\d+", fun s =>
    "app.log.".data.isPrefixOf s.data && decide (8 < s.data.length) &&
      (s.data.drop 8).all Char.isDigit⟩

/-- A regular file entry with a readable modification time. -/
def plainFile (name : String) (t : Int) : DirEntry := ⟨name, false, false, none, some t⟩

/-- Five files matching one pattern, with distinct modification times. -/
def fiveFiles : List DirEntry :=
  [plainFile "app.log.1" 50, plainFile "app.log.2" 40, plainFile "app.log.3" 30,
   plainFile "app.log.4" 20, plainFile "app.log.5" 10]

/-- The bucket that the five files form for their pattern, in listing order. -/
def fiveBucket : List FileInfo :=
  [⟨"app.log.1", 50⟩, ⟨"app.log.2", 40⟩, ⟨"app.log.3", 30⟩, ⟨"app.log.4", 20⟩,
   ⟨"app.log.5", 10⟩]

/-- A pattern standing for `err\.log`: names starting with `err.log`. -/
def errLogPattern : Regexp := ⟨"err\\.log", fun s => "err.log".data.isPrefixOf s.data⟩

/-- A symbolic link entry with the destination stored in it. -/
def linkEntry (name dest : String) : DirEntry := ⟨name, false, true, some dest, some 60⟩

/-- A listing with the five files, one error log, a subdirectory, a file matching no
pattern and a symbolic link `current` to `/var/log/app.log.4`. -/
def mixedListing : List DirEntry :=
  fiveFiles ++
    [plainFile "err.log.1" 5, ⟨"archive", true, false, none, some 1⟩,
     plainFile "notes.txt" 2, linkEntry "current" "/var/log/app.log.4"]

/-- A system in which `/var/log` holds `mixedListing`, the working directory is
`/root`, and process 812 has `/var/log/app.log.5` open. -/
def sampleEnv : Env :=
  ⟨some "/root", some mixedListing,
    some [⟨"812", true, some [⟨"0", some "/dev/null"⟩, ⟨"3", some "/var/log/app.log.5"⟩]⟩,
          ⟨"cpuinfo", false, none⟩]⟩

/-- A pattern standing for `.*`, matching every name. -/
def anyPattern : Regexp := ⟨".*", fun _ => true⟩

/-! ## `readPatternsFromFile` -/

/-- Go `bufio.MaxScanTokenSize`: the size of the largest buffer of a `Scanner`. -/
def maxScanTokenSize : Nat := 64 * 1024

/-- Go `len` of a string: the number of bytes of its UTF-8 encoding. -/
def byteLen (s : List Char) : Nat := (s.map Char.utf8Size).sum

/-- Go `bufio` `dropCR`: drop one terminal carriage return. -/
def dropCR (data : List Char) : List Char :=
  if data.getLast? = some '\r' then data.dropLast else data

/-- Go `bytes.IndexByte(data, '\n')`, as the text before the first newline and the
text after it; `none` when there is no newline. -/
def cutNewline : List Char → Option (List Char × List Char)
  | [] => none
  | c :: cs =>
    if c = '\n' then some ([], cs)
    else
      match cutNewline cs with
      | none => none
      | some (line, rest) => some (c :: line, rest)

/-- One call of `Scanner.Scan` with the split function `bufio.ScanLines` on the
unread input: the token (`Text()`) and the input left, or `none` when `Scan`
returns false.  That happens at the end of the input and when the line at hand does
not fit into a buffer of `maxScanTokenSize` bytes together with what ends it
(`ErrTooLong`; the program does not look at `scanner.Err()`). -/
def scan (data : List Char) : Option (List Char × List Char) :=
  if data = [] then none
  else
    match cutNewline data with
    | some (line, rest) =>
      if maxScanTokenSize ≤ byteLen line then none else some (dropCR line, rest)
    | none =>
      if maxScanTokenSize ≤ byteLen data then none else some (dropCR data, [])

/-- The loop `for scanner.Scan()` (source lines 132-148) on the unread input, with
`compile` standing for `regexp.Compile` (`none` on error).  Every round consumes
input, so `fuel` above the length of the input is never used up. -/
def readLoop (compile : String → Option Regexp) :
    Nat → List Char → List Regexp → List Regexp
  | 0, _, patterns => patterns
  | fuel + 1, data, patterns =>
    match scan data with
    | none => patterns
    | some (text, rest) =>
      if text = [] then readLoop compile fuel rest patterns
      else if text.head? = some '#' then readLoop compile fuel rest patterns
      else
        match compile ⟨text⟩ with
        | none => readLoop compile fuel rest patterns
        | some pattern => readLoop compile fuel rest (patterns ++ [pattern])

/-- Source `readPatternsFromFile`: the patterns and the error value (always nil). -/
def readPatternsFromFile (compile : String → Option Regexp) (content : String) :
    List Regexp × Option String :=
  (readLoop compile (content.data.length + 1) content.data [], none)

/-- The lines of a text: the runs of characters ended by a newline and, when the
text does not end with a newline, the run after the last one. -/
def rawLines : List Char → List (List Char)
  | [] => []
  | c :: cs =>
    if c = '\n' then [] :: rawLines cs
    else
      match rawLines cs with
      | [] => [[c]]
      | l :: ls => (c :: l) :: ls

/-- The patterns as the specification words them: of the lines (each taken without
one trailing carriage return, be it before the newline or at the end of a last line
without newline) that are neither empty nor start with `#`, those that compile, in
the order of the lines. -/
def specPatterns (compile : String → Option Regexp) (content : String) : List Regexp :=
  ((rawLines content.data).map dropCR).filterMap
    (fun line => if line = [] ∨ line.head? = some '#' then none else compile ⟨line⟩)

/-- A stand-in for `regexp.Compile` that rejects texts with unbalanced parentheses
and gives every other text a pattern matching the names equal to the text. -/
def sampleCompile (s : String) : Option Regexp :=
  if s.data.count '(' = s.data.count ')' then some ⟨s, fun n => decide (n = s)⟩ else none

/-- A pattern source of three pattern lines, the second malformed, with a comment
and an empty line. -/
def threeLineSource : String := "# logs\napp\\.log\n\n(err\r\nout\\.log"

/-- A pattern source whose first line has `maxScanTokenSize` bytes. -/
def longLineSource : String := ⟨List.replicate 65536 'a' ++ ['\n', 'b']⟩

/-! ## `compressFile` -/

/-- The character of a decimal digit. -/
def digitChar (d : Nat) : Char := Char.ofNat (48 + d)

/-- The decimal numeral of a natural number. -/
def formatNat (n : Nat) : List Char :=
  if n = 0 then ['0'] else (Nat.digits 10 n).reverse.map digitChar

/-- The system calls of `compressFile` after the destination name is chosen. -/
inductive Call where
  | openSrc
  | createTmp
  | copy
  | closeSrc
  | closeGzip
  | removeTmp
  | rename
  | reopenSrc
  | statSrc
  | closeSrcAgain
  | removeSrc
  | openDst
  | chmodDst
  | chownDst
  | closeTmp
  deriving DecidableEq, Repr

/-- The calls whose error the program tests; the results of the others (closing a
file, removing the temporary file) are dropped. -/
def Call.checked : Call → Bool
  | .closeSrc | .closeGzip | .removeTmp | .closeSrcAgain | .closeTmp => false
  | _ => true

/-- The calls that create, change or remove the source name or the destination
name. -/
def Call.touchesSrcOrDst : Call → Bool
  | .rename | .removeSrc | .openDst | .chmodDst | .chownDst => true
  | _ => false

/-- Source `compressFile` from line 289 on: the calls made, in order, and the error
returned (the call that failed; `none` for nil), given which calls succeed.
`closeTmp` is the deferred `tmpFile.Close()`. -/
def compressSteps (ok : Call → Bool) (preserveAttrs : Bool) : List Call × Option Call :=
  if !ok .openSrc then ([.openSrc], some .openSrc)
  else if !ok .createTmp then ([.openSrc, .createTmp], some .createTmp)
  else if !ok .copy then
    ([.openSrc, .createTmp, .copy, .closeSrc, .closeGzip, .removeTmp, .closeTmp], some .copy)
  else if !ok .rename then
    ([.openSrc, .createTmp, .copy, .closeSrc, .closeGzip, .rename, .removeTmp, .closeTmp],
      some .rename)
  else if preserveAttrs then
    if !ok .reopenSrc then
      ([.openSrc, .createTmp, .copy, .closeSrc, .closeGzip, .rename, .reopenSrc, .closeTmp],
        some .reopenSrc)
    else if !ok .statSrc then
      ([.openSrc, .createTmp, .copy, .closeSrc, .closeGzip, .rename, .reopenSrc, .statSrc,
        .closeSrcAgain, .closeTmp], some .statSrc)
    else if !ok .removeSrc then
      ([.openSrc, .createTmp, .copy, .closeSrc, .closeGzip, .rename, .reopenSrc, .statSrc,
        .closeSrcAgain, .removeSrc, .closeTmp], some .removeSrc)
    else if !ok .openDst then
      ([.openSrc, .createTmp, .copy, .closeSrc, .closeGzip, .rename, .reopenSrc, .statSrc,
        .closeSrcAgain, .removeSrc, .openDst, .closeTmp], some .openDst)
    else if !ok .chmodDst then
      ([.openSrc, .createTmp, .copy, .closeSrc, .closeGzip, .rename, .reopenSrc, .statSrc,
        .closeSrcAgain, .removeSrc, .openDst, .chmodDst, .closeTmp], some .chmodDst)
    else if !ok .chownDst then
      ([.openSrc, .createTmp, .copy, .closeSrc, .closeGzip, .rename, .reopenSrc, .statSrc,
        .closeSrcAgain, .removeSrc, .openDst, .chmodDst, .chownDst, .closeTmp],
        some .chownDst)
    else
      ([.openSrc, .createTmp, .copy, .closeSrc, .closeGzip, .rename, .reopenSrc, .statSrc,
        .closeSrcAgain, .removeSrc, .openDst, .chmodDst, .chownDst, .closeTmp], none)
  else if !ok .removeSrc then
    ([.openSrc, .createTmp, .copy, .closeSrc, .closeGzip, .rename, .removeSrc, .closeTmp],
      some .removeSrc)
  else
    ([.openSrc, .createTmp, .copy, .closeSrc, .closeGzip, .rename, .removeSrc, .closeTmp],
      none)

/-- The three names `compressFile` works on, each present or not. -/
structure Names where
  src : Bool
  tmp : Bool
  dst : Bool
  deriving DecidableEq, Repr

/-- The effect of one call on the names, when it succeeds (`good`) and when not. -/
def applyCall (good : Bool) (s : Names) : Call → Names
  | .createTmp => if good then ⟨s.src, true, s.dst⟩ else s
  | .removeTmp => if good then ⟨s.src, false, s.dst⟩ else s
  | .rename => if good then ⟨s.src, false, true⟩ else s
  | .removeSrc => if good then ⟨false, s.tmp, s.dst⟩ else s
  | _ => s

/-- The names after the calls of a run, from the state `s`. -/
def runCalls (ok : Call → Bool) (s : Names) (calls : List Call) : Names :=
  calls.foldl (fun st c => applyCall (ok c) st c) s

/-! ## Sample systems for the liveness probes -/

/-- The directory `/var/log` with the five files and a link `current` whose stored
destination is the relative name `app.log.4`; the working directory is `/root`. -/
def relativeLinkEnv : Env :=
  ⟨some "/root", some (fiveFiles ++ [linkEntry "current" "app.log.4"]), some []⟩

/-- The directory `logs` below the working directory `/srv` with the five files;
process 812 has `/srv/logs/app.log.5` open. -/
def relativeDirEnv : Env :=
  ⟨some "/srv", some fiveFiles, some [⟨"812", true, some [⟨"3", some "/srv/logs/app.log.5"⟩]⟩]⟩

/-! # Theorems -/

/-! ## Paths: joining a directory and an entry name -/

/-- The model of `filepath.Clean`, `filepath.Join` and `filepath.Abs` on cases of the
rules documented for them. -/
theorem path_examples :
    Clean "abc//def//ghi" = "abc/def/ghi" ∧ Clean "abc/./def/" = "abc/def" ∧
    Clean "abc/def/../ghi/../jkl" = "abc/jkl" ∧ Clean "/abc/def/../../.." = "/" ∧
    Clean "abc/./../def" = "def" ∧ Clean "../../abc/.." = "../.." ∧
    Clean "/../abc" = "/abc" ∧ Clean "abc/.." = "." ∧ Clean "" = "." ∧
    Clean "//" = "/" ∧ Join ["", "a"] = "a" ∧ Join ["a", ""] = "a" ∧
    Join ["/var/log/", "x.log"] = "/var/log/x.log" ∧ Join ["/proc", "812", "fd"] = "/proc/812/fd" ∧
    Abs (some "/srv") "logs/../a" = some "/srv/a" ∧ Abs none "a" = none ∧
    Abs none "/a/./b" = some "/a/b" := by
  decide

theorem splitSlash_of_not_mem : ∀ (n : List Char), '/' ∉ n → splitSlash n = [n]
  | [], _ => rfl
  | c :: cs, h => by
    have hc : c ≠ '/' := fun e => h (by simp [e])
    have hcs : '/' ∉ cs := fun e => h (by simp [e])
    simp [splitSlash, hc, splitSlash_of_not_mem cs hcs]

theorem splitSlash_ne_nil : ∀ (l : List Char), splitSlash l ≠ []
  | [] => by simp [splitSlash]
  | c :: cs => by
    by_cases hc : c = '/'
    · simp [splitSlash, hc]
    · cases h : splitSlash cs <;> simp [splitSlash, hc, h]

theorem splitSlash_append (n : List Char) :
    ∀ (d : List Char), splitSlash (d ++ '/' :: n) = splitSlash d ++ splitSlash n
  | [] => by simp [splitSlash]
  | c :: cs => by
    by_cases hc : c = '/'
    · simp [splitSlash, hc, splitSlash_append n cs]
    · have ih := splitSlash_append n cs
      cases h : splitSlash cs with
      | nil => exact absurd h (splitSlash_ne_nil cs)
      | cons a t => simp [splitSlash, hc, ih, h]

theorem intercalate_snoc (sep n : List Char) :
    ∀ (xs : List (List Char)), xs ≠ [] →
      List.intercalate sep (xs ++ [n]) = List.intercalate sep xs ++ sep ++ n
  | [], h => absurd rfl h
  | [x], _ => by simp [List.intercalate, List.intersperse]
  | x :: y :: zs, _ => by
    have ih := intercalate_snoc sep n (y :: zs) (by simp)
    simp only [List.intercalate, List.cons_append, List.intersperse, List.flatten_cons] at ih ⊢
    simp [ih]

theorem cleanChars_valid (n : String) (hn : ValidName n) : cleanChars n.data = n.data := by
  obtain ⟨h0, h1, h2, h3⟩ := hn
  have hhead : n.data.head? ≠ some '/' := by
    cases hd : n.data with
    | nil => simp
    | cons c cs =>
      have : c ≠ '/' := fun e => h3 (by simp [hd, e])
      simpa using this
  simp [cleanChars, splitSlash_of_not_mem _ h3, cleanStep, h0, h1, h2, hhead,
    List.intercalate, List.intersperse]

theorem cleanChars_append_valid (d : List Char) (hd : d ≠ []) (n : String)
    (hn : ValidName n) :
    cleanChars (d ++ '/' :: n.data) =
      (let rooted := d.head? = some '/'
       let stack := (splitSlash d).foldl (cleanStep rooted) []
       let lead := if rooted then ['/'] else []
       if stack = [] then lead else lead ++ List.intercalate ['/'] stack.reverse ++ ['/'])
        ++ n.data := by
  obtain ⟨h0, h1, h2, h3⟩ := hn
  have hhead : (d ++ '/' :: n.data).head? = d.head? := by
    cases d with
    | nil => exact absurd rfl hd
    | cons c cs => rfl
  simp only [cleanChars, hhead, splitSlash_append, splitSlash_of_not_mem _ h3,
    List.foldl_append, List.foldl_cons, List.foldl_nil]
  have hstep : ∀ st, cleanStep (decide (d.head? = some '/')) st n.data = n.data :: st := by
    intro st; simp [cleanStep, h0, h1, h2]
  rw [hstep]
  generalize List.foldl (cleanStep (decide (d.head? = some '/'))) [] (splitSlash d) = st
  by_cases hst : st = []
  · subst hst
    by_cases hr : d.head? = some '/' <;>
      simp [hr, List.intercalate, List.intersperse, h0]
  · have hrev : st.reverse ≠ [] := by simpa using hst
    rw [List.reverse_cons, intercalate_snoc _ _ _ hrev]
    by_cases hr : d.head? = some '/' <;> simp [hr, hst, h0]

/-- For a valid entry name, `filepath.Join(dir, name)` is a prefix fixed by `dir`
followed by the name. -/
theorem Join_valid (d n : String) (hn : ValidName n) :
    Join [d, n] = ⟨joinPrefix d ++ n.data⟩ := by
  have hne : n ≠ "" := by
    intro e; exact hn.1 (by rw [e])
  by_cases hd : d = ""
  · subst hd
    simp [Join, hne, Clean, List.intercalate, List.intersperse, cleanChars_valid n hn,
      joinPrefix]
  · have hdd : d.data ≠ [] := by
      intro e; apply hd; cases d; simp_all
    have hc := cleanChars_append_valid d.data hdd n hn
    have hj : List.intercalate ['/'] [d.data, n.data] = d.data ++ '/' :: n.data := by
      simp [List.intercalate, List.intersperse]
    simp only [Join, List.dropWhile, hd, decide_False, List.map, Clean, hj, hc, joinPrefix,
      hdd, if_false]

theorem Join_injective (d n m : String) (hn : ValidName n) (hm : ValidName m)
    (h : Join [d, n] = Join [d, m]) : n = m := by
  rw [Join_valid d n hn, Join_valid d m hm] at h
  have h2 : joinPrefix d ++ n.data = joinPrefix d ++ m.data := by
    injection h
  have h3 := List.append_cancel_left h2
  cases n; cases m; simp_all

/-! ## The entry loop -/

theorem isin_iff (s : String) : ∀ (a : List String), isin s a = true ↔ s ∈ a
  | [] => by simp [isin]
  | v :: a => by
    by_cases h : s = v
    · simp [isin, h]
    · simp [isin, h, isin_iff s a]

theorem assigned_cons (ps : List Regexp) (i : Nat) (e : DirEntry) (es : List DirEntry) :
    assigned ps i (e :: es) = assigned ps i [e] ++ assigned ps i es := by
  simp only [assigned, List.filterMap_cons, List.filterMap_nil]
  split <;> simp

theorem collectStep_getElem? (ps : List Regexp) (files : List (List FileInfo))
    (e : DirEntry) (i : Nat) :
    (collectStep ps files e)[i]? = files[i]?.map (fun b => b ++ assigned ps i [e]) := by
  unfold collectStep assigned
  by_cases hd : e.isDir = true
  · simp [hd]
  · cases hm : matchLoop e ps 0 with
    | none => simp [hd, hm]
    | some r =>
      obtain ⟨j, fi⟩ := r
      rcases hfi : files[i]? with _ | b <;> by_cases hji : j = i <;>
        simp [hd, hm, List.getElem?_modify, hfi, hji]

theorem foldl_collectStep_getElem? (ps : List Regexp) (i : Nat) :
    ∀ (es : List DirEntry) (files : List (List FileInfo)),
      (es.foldl (collectStep ps) files)[i]? =
        files[i]?.map (fun b => b ++ assigned ps i es)
  | [], files => by
    rcases hfi : files[i]? with _ | b <;> simp [assigned, hfi]
  | e :: es, files => by
    rw [List.foldl_cons, foldl_collectStep_getElem? ps i es, collectStep_getElem?,
      assigned_cons ps i e es]
    rcases hfi : files[i]? with _ | b <;> simp [hfi]

/-- Bucket `i` after the entry loop holds the files assigned to pattern `i`. -/
theorem buckets_getElem? (ps : List Regexp) (es : List DirEntry) (i : Nat) :
    (buckets ps es)[i]? = if i < ps.length then some (assigned ps i es) else none := by
  unfold buckets
  rw [foldl_collectStep_getElem?, List.getElem?_map]
  by_cases h : i < ps.length
  · simp [h, List.getElem?_eq_getElem h]
  · simp [h, List.getElem?_eq_none (Nat.le_of_not_lt h)]

theorem buckets_length (ps : List Regexp) (es : List DirEntry) :
    (buckets ps es).length = ps.length := by
  by_contra hne
  rcases Nat.lt_or_gt_of_ne hne with h | h
  · have h1 := buckets_getElem? ps es (buckets ps es).length
    rw [if_pos h, List.getElem?_eq_none (Nat.le_refl _)] at h1
    exact absurd h1 (by simp)
  · have h1 := buckets_getElem? ps es ps.length
    rw [if_neg (Nat.lt_irrefl _), List.getElem?_eq_getElem h] at h1
    exact absurd h1 (by simp)

theorem matchLoop_some (e : DirEntry) :
    ∀ (ps : List Regexp) (k i : Nat) (fi : FileInfo), matchLoop e ps k = some (i, fi) →
      ∃ t, e.info = some t ∧ fi = ⟨e.name, t⟩ ∧ k ≤ i ∧
        (∃ p, ps[i - k]? = some p ∧ p.matchString e.name = true) ∧
        ∀ j q, j < i - k → ps[j]? = some q → q.matchString e.name = false
  | [], k, i, fi, h => by simp [matchLoop] at h
  | p :: ps, k, i, fi, h => by
    unfold matchLoop at h
    by_cases hp : p.matchString e.name = true
    · cases hinfo : e.info with
      | none =>
        rw [if_pos hp, hinfo] at h
        obtain ⟨t, ht, _⟩ := matchLoop_some e ps (k + 1) i fi h
        rw [hinfo] at ht
        exact absurd ht (by simp)
      | some t =>
        rw [if_pos hp, hinfo] at h
        simp only [Option.some.injEq, Prod.mk.injEq] at h
        obtain ⟨hki, hfi⟩ := h
        subst hki
        exact ⟨t, rfl, hfi.symm, Nat.le_refl _, ⟨p, by simp, hp⟩, by intro j q hj; omega⟩
    · rw [if_neg hp] at h
      obtain ⟨t, ht, hfi, hk, ⟨q, hq, hqm⟩, hlow⟩ := matchLoop_some e ps (k + 1) i fi h
      have hik : i - k = (i - (k + 1)) + 1 := by omega
      refine ⟨t, ht, hfi, by omega, ⟨q, by rw [hik]; simpa using hq, hqm⟩, ?_⟩
      intro j r hj hr
      cases j with
      | zero =>
        simp only [List.getElem?_cons_zero, Option.some.injEq] at hr
        subst hr
        simpa using hp
      | succ j =>
        simp only [List.getElem?_cons_succ] at hr
        exact hlow j r (by omega) hr

theorem matchLoop_first (e : DirEntry) (t : Int) (ht : e.info = some t) :
    ∀ (ps : List Regexp) (k i : Nat) (p : Regexp), ps[i]? = some p →
      p.matchString e.name = true →
      (∀ j q, j < i → ps[j]? = some q → q.matchString e.name = false) →
      matchLoop e ps k = some (k + i, ⟨e.name, t⟩)
  | [], k, i, p, h, _, _ => by simp at h
  | q :: ps, k, 0, p, h, hp, _ => by
    simp only [List.getElem?_cons_zero, Option.some.injEq] at h
    subst h
    simp [matchLoop, hp, ht]
  | q :: ps, k, i + 1, p, h, hp, hlow => by
    have hq : q.matchString e.name = false := hlow 0 q (by omega) (by simp)
    simp only [List.getElem?_cons_succ] at h
    have ih := matchLoop_first e t ht ps (k + 1) i p h hp
      (fun j r hj hr => hlow (j + 1) r (by omega) (by simpa using hr))
    simp only [matchLoop, hq, Bool.false_eq_true, if_false, ih]
    congr 2
    omega

theorem matchLoop_none (e : DirEntry) :
    ∀ (ps : List Regexp) (k : Nat), (∀ p ∈ ps, p.matchString e.name = false) →
      matchLoop e ps k = none
  | [], _, _ => rfl
  | p :: ps, k, h => by
    have hp : p.matchString e.name = false := h p (by simp)
    simp only [matchLoop, hp, Bool.false_eq_true, if_false]
    exact matchLoop_none e ps (k + 1) (fun q hq => h q (by simp [hq]))

/-- Membership in a bucket, traced back to the listing. -/
theorem mem_assigned (ps : List Regexp) (i : Nat) (es : List DirEntry) (fi : FileInfo) :
    fi ∈ assigned ps i es ↔
      ∃ e ∈ es, e.isDir = false ∧ matchLoop e ps 0 = some (i, fi) := by
  unfold assigned
  rw [List.mem_filterMap]
  constructor
  · rintro ⟨e, he, h⟩
    refine ⟨e, he, ?_⟩
    by_cases hd : e.isDir = true
    · simp [hd] at h
    · cases hm : matchLoop e ps 0 with
      | none => simp [hd, hm] at h
      | some r =>
        obtain ⟨j, g⟩ := r
        by_cases hji : j = i
        · simp [hd, hm, hji] at h
          simp [hd, hji, h]
        · simp [hd, hm, hji] at h
  · rintro ⟨e, he, hd, hm⟩
    exact ⟨e, he, by simp [hd, hm]⟩

/-! ## The bucket loop -/

theorem foldl_exclude (basedir : String) (L O : List String) :
    ∀ (l acc : List FileInfo),
      l.foldl
        (fun newl fi =>
          if isin (pathOf basedir fi) L then newl
          else if isin (pathOf basedir fi) O then newl
          else newl ++ [fi]) acc = acc ++ l.filter (notExcluded basedir L O)
  | [], acc => by simp
  | fi :: l, acc => by
    rw [List.foldl_cons, foldl_exclude basedir L O l]
    by_cases h1 : isin (pathOf basedir fi) L = true
    · simp [notExcluded, h1]
    · by_cases h2 : isin (pathOf basedir fi) O = true
      · simp [notExcluded, h1, h2]
      · simp [notExcluded, h1, h2]

theorem excludeLoop_eq_filter (basedir : String) (L O : List String) (l : List FileInfo) :
    excludeLoop basedir L O l = l.filter (notExcluded basedir L O) := by
  unfold excludeLoop
  rw [foldl_exclude]
  simp

theorem selectBucket_small (srt : List FileInfo → List FileInfo) (basedir : String)
    (keep : Int) (L O : List String) (l : List FileInfo) (h : (l.length : Int) ≤ keep) :
    selectBucket srt basedir keep L O l = .ok [] := by
  simp [selectBucket, h]

theorem selectBucket_large (srt : List FileInfo → List FileInfo) (basedir : String)
    (keep : Int) (hK : 0 ≤ keep) (L O : List String) (l : List FileInfo)
    (h : keep < (l.length : Int)) :
    selectBucket srt basedir keep L O l =
      .ok (((srt l).take (l.length - keep.toNat)).filter (notExcluded basedir L O)) := by
  have h1 : ¬ ((l.length : Int) ≤ keep) := by omega
  have h2 : ¬ (keep < 0) := by omega
  simp [selectBucket, h1, h2, excludeLoop_eq_filter]

/-- With a retention count that is not negative the bucket loop does not fail, and
treats each bucket on its own. -/
theorem selectAll_ok (srt : List FileInfo → List FileInfo) (basedir : String)
    (keep : Int) (hK : 0 ≤ keep) (L O : List String) :
    ∀ (bs : List (List FileInfo)),
      ∃ cs, selectAll srt basedir keep L O bs = .ok cs ∧ cs.length = bs.length ∧
        ∀ (i : Nat) (b : List FileInfo), bs[i]? = some b →
          ∃ c, cs[i]? = some c ∧ selectBucket srt basedir keep L O b = .ok c
  | [] => ⟨[], rfl, rfl, by simp⟩
  | l :: rest => by
    obtain ⟨cs, hcs, hlen, hget⟩ := selectAll_ok srt basedir keep hK L O rest
    have hb : ∃ c, selectBucket srt basedir keep L O l = .ok c := by
      by_cases h : (l.length : Int) ≤ keep
      · exact ⟨_, selectBucket_small srt basedir keep L O l h⟩
      · exact ⟨_, selectBucket_large srt basedir keep hK L O l (by omega)⟩
    obtain ⟨c, hc⟩ := hb
    refine ⟨c :: cs, by simp [selectAll, hc, hcs], by simp [hlen], ?_⟩
    intro i b hi
    cases i with
    | zero =>
      simp only [List.getElem?_cons_zero, Option.some.injEq] at hi
      subst hi
      exact ⟨c, by simp, hc⟩
    | succ i =>
      simp only [List.getElem?_cons_succ] at hi
      simpa using hget i b hi

/-- When every bucket is within the retention count, nothing fails and every
bucket is emptied, whatever the sign of the count. -/
theorem selectAll_small (srt : List FileInfo → List FileInfo) (basedir : String)
    (keep : Int) (L O : List String) :
    ∀ (bs : List (List FileInfo)), (∀ b ∈ bs, (b.length : Int) ≤ keep) →
      selectAll srt basedir keep L O bs = .ok (bs.map (fun _ => []))
  | [], _ => rfl
  | l :: rest, h => by
    have h1 := selectBucket_small srt basedir keep L O l (h l (by simp))
    have h2 := selectAll_small srt basedir keep L O rest (fun b hb => h b (by simp [hb]))
    simp [selectAll, h1, h2]

theorem resultPaths_mem (basedir : String) (cs : List (List FileInfo)) (p : String) :
    p ∈ resultPaths basedir cs ↔ ∃ c ∈ cs, ∃ fi ∈ c, pathOf basedir fi = p := by
  simp [resultPaths, List.mem_flatten]

theorem selectFiles_of_selectAll (srt : List FileInfo → List FileInfo)
    (patterns : List Regexp) (basedir : String) (keep : Int) (L O : List String)
    (entries : List DirEntry) (cs : List (List FileInfo))
    (h : selectAll srt basedir keep L O (buckets patterns entries) = .ok cs) :
    selectFiles srt patterns basedir keep L O entries = .ok (resultPaths basedir cs) := by
  simp [selectFiles, h]

/-- Every file that survives the bucket loop passes the exclusion test and belongs
to the bucket it came from. -/
theorem selectBucket_mem (srt : List FileInfo → List FileInfo) (basedir : String)
    (keep : Int) (L O : List String) (l c : List FileInfo)
    (h : selectBucket srt basedir keep L O l = .ok c) (fi : FileInfo) (hfi : fi ∈ c) :
    fi ∈ srt l ∧ notExcluded basedir L O fi = true := by
  unfold selectBucket at h
  by_cases h1 : (l.length : Int) ≤ keep
  · simp [h1] at h
    subst h
    simp at hfi
  · by_cases h2 : keep < 0
    · simp [h1, h2] at h
    · simp only [h1, h2, if_false, Except.ok.injEq, excludeLoop_eq_filter] at h
      subst h
      obtain ⟨hm, hp⟩ := List.mem_filter.mp hfi
      exact ⟨(List.take_sublist _ _).subset hm, hp⟩

theorem selectAll_inv (srt : List FileInfo → List FileInfo) (basedir : String)
    (keep : Int) (L O : List String) :
    ∀ (bs cs : List (List FileInfo)), selectAll srt basedir keep L O bs = .ok cs →
      cs.length = bs.length ∧
      ∀ (i : Nat) (c : List FileInfo), cs[i]? = some c →
        ∃ b, bs[i]? = some b ∧ selectBucket srt basedir keep L O b = .ok c
  | [], cs, h => by
    simp only [selectAll, Except.ok.injEq] at h
    subst h
    simp
  | l :: rest, cs, h => by
    unfold selectAll at h
    cases hb : selectBucket srt basedir keep L O l with
    | error e => simp [hb] at h
    | ok newl =>
      cases hr : selectAll srt basedir keep L O rest with
      | error e => simp [hb, hr] at h
      | ok done =>
        simp only [hb, hr, Except.ok.injEq] at h
        subst h
        obtain ⟨hlen, hget⟩ := selectAll_inv srt basedir keep L O rest done hr
        refine ⟨by simp [hlen], ?_⟩
        intro i c hi
        cases i with
        | zero =>
          simp only [List.getElem?_cons_zero, Option.some.injEq] at hi
          subst hi
          exact ⟨l, by simp, hb⟩
        | succ i =>
          simp only [List.getElem?_cons_succ] at hi
          simpa using hget i c hi

theorem getMatchingFiles_eq (srt : List FileInfo → List FileInfo) (env : Env) (keep : Int)
    (patterns : List Regexp) (basedir : String) (entries : List DirEntry)
    (h : env.listing = some entries) :
    getMatchingFiles srt env keep patterns basedir =
      selectFiles srt patterns basedir keep (linkedFiles env basedir)
        (opendFiles env basedir) entries := by
  simp [getMatchingFiles, h]

/-- A file of a bucket carries the name of a non-directory entry of the listing
whose first matching pattern is the one of the bucket. -/
theorem assigned_origin (ps : List Regexp) (i : Nat) (es : List DirEntry) (fi : FileInfo)
    (h : fi ∈ assigned ps i es) :
    ∃ e ∈ es, e.isDir = false ∧ fi.name = e.name ∧ e.info = some fi.modTime ∧
      (∃ p, ps[i]? = some p ∧ p.matchString e.name = true) ∧
      ∀ j q, j < i → ps[j]? = some q → q.matchString e.name = false := by
  obtain ⟨e, he, hd, hm⟩ := (mem_assigned ps i es fi).mp h
  obtain ⟨t, ht, hfi, _, hp, hlow⟩ := matchLoop_some e ps 0 i fi hm
  subst hfi
  exact ⟨e, he, hd, rfl, ht, by simpa using hp, by simpa using hlow⟩

/-- Files with the same name are never in two different buckets. -/
theorem same_name_same_bucket (ps : List Regexp) (es : List DirEntry) (i j : Nat)
    (fi fj : FileInfo) (hi : fi ∈ assigned ps i es) (hj : fj ∈ assigned ps j es)
    (hname : fi.name = fj.name) : i = j := by
  obtain ⟨e, _, _, hn, _, ⟨p, hp, hpm⟩, hlow⟩ := assigned_origin ps i es fi hi
  obtain ⟨e2, _, _, hn2, _, ⟨q, hq, hqm⟩, hlow2⟩ := assigned_origin ps j es fj hj
  have hee : e.name = e2.name := by rw [← hn, ← hn2, hname]
  rcases Nat.lt_trichotomy i j with h | h | h
  · have := hlow2 i p h hp
    rw [← hee, hpm] at this
    exact absurd this (by simp)
  · exact h
  · have := hlow j q h hq
    rw [hee, hqm] at this
    exact absurd this (by simp)

theorem assigned_names_sublist (ps : List Regexp) (i : Nat) :
    ∀ (es : List DirEntry),
      ((assigned ps i es).map FileInfo.name).Sublist (es.map DirEntry.name)
  | [] => by simp [assigned]
  | e :: es => by
    rw [assigned_cons, List.map_append, List.map_cons]
    have ih := assigned_names_sublist ps i es
    by_cases hd : e.isDir = true
    · simpa [assigned, hd] using ih.cons e.name
    · cases hm : matchLoop e ps 0 with
      | none => simpa [assigned, hd, hm] using ih.cons e.name
      | some r =>
        obtain ⟨j, fi⟩ := r
        by_cases hji : j = i
        · obtain ⟨t, _, hfi, _⟩ := matchLoop_some e ps 0 j fi hm
          subst hfi
          simpa [assigned, hd, hm, hji] using ih.cons₂ e.name
        · simpa [assigned, hd, hm, hji] using ih.cons e.name

/-- What remains of a bucket is a sublist of the sorted bucket. -/
theorem selectBucket_sublist (srt : List FileInfo → List FileInfo) (basedir : String)
    (keep : Int) (L O : List String) (l c : List FileInfo)
    (h : selectBucket srt basedir keep L O l = .ok c) : c.Sublist (srt l) := by
  unfold selectBucket at h
  by_cases h1 : (l.length : Int) ≤ keep
  · simp [h1] at h
    subst h
    exact List.nil_sublist _
  · by_cases h2 : keep < 0
    · simp [h1, h2] at h
    · simp only [h1, h2, if_false, Except.ok.injEq, excludeLoop_eq_filter] at h
      subst h
      exact (List.filter_sublist _).trans (List.take_sublist _ _)

/-- Every file that remains after the bucket loop comes from the bucket at the same
position. -/
theorem selected_mem_assigned (srt : List FileInfo → List FileInfo)
    (hs : SortSliceSpec srt) (patterns : List Regexp) (basedir : String) (keep : Int)
    (L O : List String) (entries : List DirEntry) (cs : List (List FileInfo))
    (h : selectAll srt basedir keep L O (buckets patterns entries) = .ok cs)
    (i : Nat) (c : List FileInfo) (hc : cs[i]? = some c) (fi : FileInfo) (hfi : fi ∈ c) :
    i < patterns.length ∧ fi ∈ assigned patterns i entries ∧
      c.Sublist (srt (assigned patterns i entries)) := by
  obtain ⟨_, hget⟩ := selectAll_inv srt basedir keep L O _ cs h
  obtain ⟨b, hb, hsel⟩ := hget i c hc
  rw [buckets_getElem?] at hb
  by_cases hlt : i < patterns.length
  · simp only [hlt, if_true, Option.some.injEq] at hb
    subst hb
    have hsub := selectBucket_sublist srt basedir keep L O _ c hsel
    exact ⟨hlt, (hs.perm _).subset (hsub.subset hfi), hsub⟩
  · simp [hlt] at hb

/-! ## Retention and exclusion -/

theorem notExcluded_nil (basedir : String) (fi : FileInfo) :
    notExcluded basedir [] [] fi = true := by
  simp [notExcluded, isin]

theorem notExcluded_iff (basedir : String) (L O : List String) (fi : FileInfo) :
    notExcluded basedir L O fi = true ↔ pathOf basedir fi ∉ L ∧ pathOf basedir fi ∉ O := by
  simp only [notExcluded, Bool.and_eq_true, Bool.not_eq_true', ← Bool.not_eq_true, isin_iff]

/-- C1: for a retention count `keep ≥ 0` and a bucket `b` with more than `keep`
entries, the sorted bucket splits into candidates and `keep` withheld entries; no
candidate is modified later than a withheld entry; without exclusions the bucket
contributes exactly the candidates, and with exclusion lists `L`, `O` it contributes
the candidates that are not excluded, the split itself not depending on `L`, `O`. -/
theorem retention_cut (srt : List FileInfo → List FileInfo) (hs : SortSliceSpec srt)
    (patterns : List Regexp) (basedir : String) (keep : Int) (hK : 0 ≤ keep)
    (entries : List DirEntry) (i : Nat) (b : List FileInfo)
    (hb : (buckets patterns entries)[i]? = some b) (hn : keep < (b.length : Int)) :
    ∃ cand withheld : List FileInfo,
      srt b = cand ++ withheld ∧ (cand ++ withheld).Perm b ∧
      (withheld.length : Int) = keep ∧ (cand.length : Int) = (b.length : Int) - keep ∧
      (∀ c ∈ cand, ∀ w ∈ withheld, c.modTime ≤ w.modTime) ∧
      (∃ cs, selectAll srt basedir keep [] [] (buckets patterns entries) = .ok cs ∧
        cs[i]? = some cand) ∧
      ∀ L O : List String,
        ∃ cs, selectAll srt basedir keep L O (buckets patterns entries) = .ok cs ∧
          cs[i]? = some (cand.filter (notExcluded basedir L O)) ∧
          selectFiles srt patterns basedir keep L O entries = .ok (resultPaths basedir cs) ∧
          ∀ env : Env, env.listing = some entries → linkedFiles env basedir = L →
            opendFiles env basedir = O →
            getMatchingFiles srt env keep patterns basedir = .ok (resultPaths basedir cs) := by
  have hlen : (srt b).length = b.length := (hs.perm b).length_eq
  have hk : keep.toNat ≤ b.length := by omega
  have hgen : ∀ L O : List String,
      ∃ cs, selectAll srt basedir keep L O (buckets patterns entries) = .ok cs ∧
        cs[i]? = some (((srt b).take (b.length - keep.toNat)).filter
          (notExcluded basedir L O)) ∧
        selectFiles srt patterns basedir keep L O entries = .ok (resultPaths basedir cs) ∧
        ∀ env : Env, env.listing = some entries → linkedFiles env basedir = L →
          opendFiles env basedir = O →
          getMatchingFiles srt env keep patterns basedir = .ok (resultPaths basedir cs) := by
    intro L O
    obtain ⟨cs, hcs, _, hget⟩ := selectAll_ok srt basedir keep hK L O (buckets patterns entries)
    obtain ⟨c, hc, hsel⟩ := hget i b hb
    rw [selectBucket_large srt basedir keep hK L O b hn] at hsel
    simp only [Except.ok.injEq] at hsel
    have hsf := selectFiles_of_selectAll srt patterns basedir keep L O entries cs hcs
    refine ⟨cs, hcs, by rw [hc, hsel], hsf, ?_⟩
    intro env henv hL hO
    rw [getMatchingFiles_eq srt env keep patterns basedir entries henv, hL, hO, hsf]
  refine ⟨(srt b).take (b.length - keep.toNat), (srt b).drop (b.length - keep.toNat),
    (List.take_append_drop _ _).symm, ?_, ?_, ?_, ?_, ?_, hgen⟩
  · rw [List.take_append_drop]
    exact hs.perm b
  · rw [List.length_drop, hlen]
    omega
  · rw [List.length_take, hlen]
    omega
  · have hp := hs.sorted b
    rw [← List.take_append_drop (b.length - keep.toNat) (srt b), List.pairwise_append] at hp
    exact hp.2.2
  · obtain ⟨cs, hcs, hget, _⟩ := hgen [] []
    refine ⟨cs, hcs, ?_⟩
    rw [hget]
    congr 1
    apply List.filter_eq_self.mpr
    intro a _
    exact notExcluded_nil basedir a

/-- C2: a bucket with at most `keep` entries is emptied by the bucket loop and none
of its files has its path in the returned list; when every bucket has at most `keep`
entries the returned list is empty. -/
theorem small_bucket_contributes_nothing (srt : List FileInfo → List FileInfo)
    (hs : SortSliceSpec srt) (patterns : List Regexp) (basedir : String) (keep : Int)
    (L O : List String) (entries : List DirEntry) :
    (∀ (i : Nat) (b : List FileInfo), (buckets patterns entries)[i]? = some b →
      (b.length : Int) ≤ keep →
      ∃ cs, selectAll srt basedir keep L O (buckets patterns entries) = .ok cs ∧
        cs[i]? = some [] ∧
        selectFiles srt patterns basedir keep L O entries = .ok (resultPaths basedir cs) ∧
        ((∀ e ∈ entries, ValidName e.name) →
          ∀ fi ∈ b, pathOf basedir fi ∉ resultPaths basedir cs)) ∧
    ((∀ b ∈ buckets patterns entries, (b.length : Int) ≤ keep) →
      selectFiles srt patterns basedir keep L O entries = .ok [] ∧
      ∀ env : Env, env.listing = some entries →
        getMatchingFiles srt env keep patterns basedir = .ok []) := by
  constructor
  · intro i b hb hsmall
    have hK : 0 ≤ keep := by omega
    obtain ⟨cs, hcs, _, hget⟩ := selectAll_ok srt basedir keep hK L O (buckets patterns entries)
    obtain ⟨c, hc, hsel⟩ := hget i b hb
    rw [selectBucket_small srt basedir keep L O b hsmall] at hsel
    simp only [Except.ok.injEq] at hsel
    subst hsel
    refine ⟨cs, hcs, hc, selectFiles_of_selectAll srt patterns basedir keep L O entries cs hcs,
      ?_⟩
    intro hvalid fi hfi hmem
    obtain ⟨c, hcmem, fj, hfj, hpath⟩ := (resultPaths_mem basedir cs _).mp hmem
    obtain ⟨j, hj⟩ := List.mem_iff_getElem?.mp hcmem
    obtain ⟨_, hfj2, _⟩ :=
      selected_mem_assigned srt hs patterns basedir keep L O entries cs hcs j c hj fj hfj
    have hbi : b = assigned patterns i entries := by
      rw [buckets_getElem?] at hb
      by_cases hlt : i < patterns.length
      · simpa [hlt] using hb.symm
      · simp [hlt] at hb
    rw [hbi] at hfi
    obtain ⟨e, he, _, hne, _⟩ := assigned_origin patterns i entries fi hfi
    obtain ⟨e2, he2, _, hne2, _⟩ := assigned_origin patterns j entries fj hfj2
    have hnames : fj.name = fi.name := by
      apply Join_injective basedir
      · rw [hne2]; exact hvalid e2 he2
      · rw [hne]; exact hvalid e he
      · exact hpath
    have hij := same_name_same_bucket patterns entries j i fj fi hfj2 hfi hnames
    subst hij
    rw [hc] at hj
    simp only [Option.some.injEq] at hj
    subst hj
    simp at hfj
  · intro hall
    have h := selectAll_small srt basedir keep L O (buckets patterns entries) hall
    have hempty : ∀ (L2 O2 : List String),
        selectFiles srt patterns basedir keep L2 O2 entries = .ok [] := by
      intro L2 O2
      have h2 := selectAll_small srt basedir keep L2 O2 (buckets patterns entries) hall
      rw [selectFiles_of_selectAll srt patterns basedir keep L2 O2 entries _ h2]
      congr 1
      simp [resultPaths]
    refine ⟨hempty L O, ?_⟩
    intro env henv
    rw [getMatchingFiles_eq srt env keep patterns basedir entries henv]
    exact hempty _ _

/-- C3: with `keep ≥ 0`, `getMatchingFiles` returns, and no returned path is in the
list of `linkedFiles` or of `opendFiles`; the same holds for any two exclusion
lists in their place. -/
theorem no_excluded_path_selected (srt : List FileInfo → List FileInfo)
    (patterns : List Regexp) (basedir : String) (keep : Int) (hK : 0 ≤ keep)
    (entries : List DirEntry) :
    (∀ env : Env, env.listing = some entries →
      ∃ r, getMatchingFiles srt env keep patterns basedir = .ok r ∧
        ∀ p ∈ r, p ∉ linkedFiles env basedir ∧ p ∉ opendFiles env basedir) ∧
    ∀ L O : List String,
      ∃ r, selectFiles srt patterns basedir keep L O entries = .ok r ∧
        ∀ p ∈ r, p ∉ L ∧ p ∉ O := by
  have hgen : ∀ L O : List String,
      ∃ r, selectFiles srt patterns basedir keep L O entries = .ok r ∧
        ∀ p ∈ r, p ∉ L ∧ p ∉ O := by
    intro L O
    obtain ⟨cs, hcs, _, _⟩ := selectAll_ok srt basedir keep hK L O (buckets patterns entries)
    refine ⟨_, selectFiles_of_selectAll srt patterns basedir keep L O entries cs hcs, ?_⟩
    intro p hp
    obtain ⟨c, hcmem, fi, hfi, hpath⟩ := (resultPaths_mem basedir cs p).mp hp
    obtain ⟨j, hj⟩ := List.mem_iff_getElem?.mp hcmem
    obtain ⟨_, hget⟩ := selectAll_inv srt basedir keep L O _ cs hcs
    obtain ⟨b, _, hsel⟩ := hget j c hj
    have hne := (selectBucket_mem srt basedir keep L O b c hsel fi hfi).2
    rw [notExcluded_iff, hpath] at hne
    exact hne
  refine ⟨?_, hgen⟩
  intro env henv
  rw [getMatchingFiles_eq srt env keep patterns basedir entries henv]
  exact hgen _ _

/-! ## First match, order of the result -/

theorem mem_buckets (ps : List Regexp) (es : List DirEntry) (b : List FileInfo)
    (h : b ∈ buckets ps es) : ∃ j, j < ps.length ∧ b = assigned ps j es := by
  obtain ⟨j, hj⟩ := List.mem_iff_getElem?.mp h
  rw [buckets_getElem?] at hj
  by_cases hlt : j < ps.length
  · exact ⟨j, hlt, by simpa [hlt] using hj.symm⟩
  · simp [hlt] at hj

/-- A name held by no bucket gives a path that is not returned. -/
theorem path_not_returned (srt : List FileInfo → List FileInfo) (hs : SortSliceSpec srt)
    (patterns : List Regexp) (basedir : String) (keep : Int) (L O : List String)
    (entries : List DirEntry) (hvalid : ∀ e ∈ entries, ValidName e.name)
    (e : DirEntry) (he : e ∈ entries)
    (hno : ∀ b ∈ buckets patterns entries, ∀ fi ∈ b, fi.name ≠ e.name)
    (r : List String) (hr : selectFiles srt patterns basedir keep L O entries = .ok r) :
    Join [basedir, e.name] ∉ r := by
  intro hmem
  unfold selectFiles at hr
  cases hcs : selectAll srt basedir keep L O (buckets patterns entries) with
  | error x => simp [hcs] at hr
  | ok cs =>
    simp only [hcs, Except.ok.injEq] at hr
    subst hr
    obtain ⟨c, hcmem, fi, hfi, hpath⟩ := (resultPaths_mem basedir cs _).mp hmem
    obtain ⟨j, hj⟩ := List.mem_iff_getElem?.mp hcmem
    obtain ⟨hlt, hfa, _⟩ :=
      selected_mem_assigned srt hs patterns basedir keep L O entries cs hcs j c hj fi hfi
    obtain ⟨e2, he2, _, hne2, _⟩ := assigned_origin patterns j entries fi hfa
    have hname : fi.name = e.name := by
      apply Join_injective basedir
      · rw [hne2]; exact hvalid e2 he2
      · exact hvalid e he
      · exact hpath
    have hbm : assigned patterns j entries ∈ buckets patterns entries := by
      apply List.mem_iff_getElem?.mpr
      exact ⟨j, by rw [buckets_getElem?, if_pos hlt]⟩
    exact hno _ hbm fi hfa hname

theorem foldl_collectStep_filter (ps : List Regexp) :
    ∀ (es : List DirEntry) (files : List (List FileInfo)),
      es.foldl (collectStep ps) files =
        (es.filter (fun e => !e.isDir)).foldl (collectStep ps) files
  | [], _ => rfl
  | e :: es, files => by
    by_cases hd : e.isDir = true
    · simp [hd, collectStep, foldl_collectStep_filter ps es files]
    · have hd2 : e.isDir = false := by simpa using hd
      simp [hd2, foldl_collectStep_filter ps es (collectStep ps files e)]

/-- Directory entries have no effect on the buckets. -/
theorem buckets_filter (ps : List Regexp) (es : List DirEntry) :
    buckets ps es = buckets ps (es.filter (fun e => !e.isDir)) := by
  unfold buckets
  exact foldl_collectStep_filter ps es _

/-- C4: a non-directory entry whose `Info()` succeeds is put into the bucket of the
lowest-index pattern matching its name and its name occurs in no other bucket; the
name of an entry that matches no pattern occurs in no bucket; directory entries have
no effect on the buckets and on the result; for a listing of valid names the path of
an entry matching no pattern is not returned, nor (names being distinct) that of a
directory entry; with `keep ≥ 0` the function returns. -/
theorem first_match_wins (srt : List FileInfo → List FileInfo)
    (patterns : List Regexp) (basedir : String) (keep : Int) (L O : List String)
    (entries : List DirEntry) :
    (∀ e ∈ entries, e.isDir = false → ∀ t : Int, e.info = some t →
      ∀ (i : Nat) (p : Regexp), patterns[i]? = some p → p.matchString e.name = true →
      (∀ (j : Nat) (q : Regexp), j < i → patterns[j]? = some q →
        q.matchString e.name = false) →
      (∃ b, (buckets patterns entries)[i]? = some b ∧ (⟨e.name, t⟩ : FileInfo) ∈ b) ∧
      ∀ (j : Nat) (b : List FileInfo), (buckets patterns entries)[j]? = some b →
        (∃ fi ∈ b, fi.name = e.name) → j = i) ∧
    (∀ e ∈ entries, (∀ p ∈ patterns, p.matchString e.name = false) →
      ∀ b ∈ buckets patterns entries, ∀ fi ∈ b, fi.name ≠ e.name) ∧
    (buckets patterns entries = buckets patterns (entries.filter (fun e => !e.isDir)) ∧
      selectFiles srt patterns basedir keep L O entries =
        selectFiles srt patterns basedir keep L O (entries.filter (fun e => !e.isDir))) ∧
    (SortSliceSpec srt → (∀ e ∈ entries, ValidName e.name) →
      ∀ e ∈ entries, ∀ r, selectFiles srt patterns basedir keep L O entries = .ok r →
        ((∀ p ∈ patterns, p.matchString e.name = false) → Join [basedir, e.name] ∉ r) ∧
        ((entries.map DirEntry.name).Nodup → e.isDir = true →
          Join [basedir, e.name] ∉ r)) ∧
    (0 ≤ keep → ∃ r, selectFiles srt patterns basedir keep L O entries = .ok r) := by
  have hunmatched : ∀ e ∈ entries, (∀ p ∈ patterns, p.matchString e.name = false) →
      ∀ b ∈ buckets patterns entries, ∀ fi ∈ b, fi.name ≠ e.name := by
    intro e _ hnone b hbm fi hfi hname
    obtain ⟨j, _, hbj⟩ := mem_buckets patterns entries b hbm
    subst hbj
    obtain ⟨e2, _, _, hne2, _, ⟨p, hp, hpm⟩, _⟩ := assigned_origin patterns j entries fi hfi
    have hpmem : p ∈ patterns := List.mem_iff_getElem?.mpr ⟨j, hp⟩
    have := hnone p hpmem
    rw [← hname, hne2, hpm] at this
    exact absurd this (by simp)
  refine ⟨?_, hunmatched, ?_, ?_, ?_⟩
  · intro e he hd t ht i p hp hpm hlow
    have hlt : i < patterns.length := by
      by_contra hge
      rw [List.getElem?_eq_none (Nat.le_of_not_lt hge)] at hp
      exact absurd hp (by simp)
    have hml := matchLoop_first e t ht patterns 0 i p hp hpm hlow
    rw [Nat.zero_add] at hml
    have hin : (⟨e.name, t⟩ : FileInfo) ∈ assigned patterns i entries :=
      (mem_assigned patterns i entries _).mpr ⟨e, he, hd, hml⟩
    refine ⟨⟨_, by rw [buckets_getElem?, if_pos hlt], hin⟩, ?_⟩
    intro j b hb ⟨fi, hfi, hname⟩
    rw [buckets_getElem?] at hb
    by_cases hj : j < patterns.length
    · simp only [hj, if_true, Option.some.injEq] at hb
      subst hb
      exact same_name_same_bucket patterns entries j i fi _ hfi hin hname
    · simp [hj] at hb
  · have hb := buckets_filter patterns entries
    refine ⟨hb, ?_⟩
    unfold selectFiles
    rw [← hb]
  · intro hs hvalid e he r hr
    constructor
    · intro hnone
      exact path_not_returned srt hs patterns basedir keep L O entries hvalid e he
        (hunmatched e he hnone) r hr
    · intro hnodup hd
      have hno : ∀ b ∈ buckets patterns entries, ∀ fi ∈ b, fi.name ≠ e.name := by
        intro b hbm fi hfi hname
        obtain ⟨j, _, hbj⟩ := mem_buckets patterns entries b hbm
        subst hbj
        obtain ⟨e2, he2, hd2, hne2, _⟩ := assigned_origin patterns j entries fi hfi
        have hee : e2 = e :=
          List.inj_on_of_nodup_map hnodup he2 he (by rw [← hne2, hname])
        rw [hee, hd] at hd2
        exact absurd hd2 (by simp)
      exact path_not_returned srt hs patterns basedir keep L O entries hvalid e he hno r hr
  · intro hK
    obtain ⟨cs, hcs, _, _⟩ := selectAll_ok srt basedir keep hK L O (buckets patterns entries)
    exact ⟨_, selectFiles_of_selectAll srt patterns basedir keep L O entries cs hcs⟩

theorem selected_names_nodup (srt : List FileInfo → List FileInfo) (hs : SortSliceSpec srt)
    (patterns : List Regexp) (entries : List DirEntry)
    (hnodup : (entries.map DirEntry.name).Nodup) (i : Nat) (c : List FileInfo)
    (hsub : c.Sublist (srt (assigned patterns i entries))) :
    (c.map FileInfo.name).Nodup := by
  have h1 : ((assigned patterns i entries).map FileInfo.name).Nodup :=
    hnodup.sublist (assigned_names_sublist patterns i entries)
  have h2 : ((srt (assigned patterns i entries)).map FileInfo.name).Nodup :=
    (((hs.perm _).map FileInfo.name).nodup_iff).mpr h1
  exact h2.sublist (hsub.map FileInfo.name)

theorem flatten_split (α : Type) : ∀ (ls : List (List α)) (j : Nat) (b : List α),
    ls[j]? = some b → ∃ p q, ls.flatten = p ++ b ++ q
  | [], j, b, h => by simp at h
  | x :: xs, 0, b, h => by
    simp only [List.getElem?_cons_zero, Option.some.injEq] at h
    subst h
    exact ⟨[], xs.flatten, by simp⟩
  | x :: xs, j + 1, b, h => by
    simp only [List.getElem?_cons_succ] at h
    obtain ⟨p, q, hpq⟩ := flatten_split α xs j b h
    exact ⟨x ++ p, q, by simp [hpq]⟩

/-- In a concatenation the part at position `i` lies before the part at a later
position `j`. -/
theorem flatten_split_two (α : Type) : ∀ (ls : List (List α)) (i j : Nat) (a b : List α),
    i < j → ls[i]? = some a → ls[j]? = some b →
    ∃ pre mid post, ls.flatten = pre ++ a ++ mid ++ b ++ post
  | [], i, j, a, b, _, h, _ => by simp at h
  | x :: xs, 0, 0, a, b, hij, _, _ => by omega
  | x :: xs, 0, j + 1, a, b, _, ha, hb => by
    simp only [List.getElem?_cons_zero, Option.some.injEq] at ha
    subst ha
    simp only [List.getElem?_cons_succ] at hb
    obtain ⟨p, q, hpq⟩ := flatten_split α xs j b hb
    exact ⟨[], p, q, by simp [hpq]⟩
  | x :: xs, i + 1, 0, a, b, hij, _, _ => by omega
  | x :: xs, i + 1, j + 1, a, b, hij, ha, hb => by
    simp only [List.getElem?_cons_succ] at ha hb
    obtain ⟨pre, mid, post, h⟩ := flatten_split_two α xs i j a b (by omega) ha hb
    exact ⟨x ++ pre, mid, post, by simp [h]⟩

/-- C10: with `keep ≥ 0` the returned list is the concatenation, in pattern order,
of what remains of each bucket; what remains of a bucket is in non-decreasing
order of modification time and consists of files of that bucket, each the file of a
non-directory entry of the listing; every path is `Join(basedir, name)`; and for a
listing of distinct (valid) names no path occurs twice. -/
theorem result_order (srt : List FileInfo → List FileInfo) (hs : SortSliceSpec srt)
    (patterns : List Regexp) (basedir : String) (keep : Int) (hK : 0 ≤ keep)
    (L O : List String) (entries : List DirEntry) :
    ∃ cs : List (List FileInfo),
      selectAll srt basedir keep L O (buckets patterns entries) = .ok cs ∧
      cs.length = patterns.length ∧
      selectFiles srt patterns basedir keep L O entries =
        .ok (cs.map (fun c => c.map (fun fi => Join [basedir, fi.name]))).flatten ∧
      (∀ env : Env, env.listing = some entries → linkedFiles env basedir = L →
        opendFiles env basedir = O →
        getMatchingFiles srt env keep patterns basedir =
          .ok (cs.map (fun c => c.map (fun fi => Join [basedir, fi.name]))).flatten) ∧
      (∀ (i : Nat) (c : List FileInfo), cs[i]? = some c →
        c.Pairwise (fun a b => a.modTime ≤ b.modTime) ∧
        ∃ b, (buckets patterns entries)[i]? = some b ∧ c.Sublist (srt b) ∧
          ∀ fi ∈ c, fi ∈ b ∧
            ∃ e ∈ entries, e.isDir = false ∧ fi.name = e.name ∧
              e.info = some fi.modTime) ∧
      (∀ (i j : Nat) (ci cj : List FileInfo), i < j → cs[i]? = some ci → cs[j]? = some cj →
        ∃ pre mid post : List String,
          (cs.map (fun c => c.map (fun fi => Join [basedir, fi.name]))).flatten =
            pre ++ ci.map (fun fi => Join [basedir, fi.name]) ++ mid ++
              cj.map (fun fi => Join [basedir, fi.name]) ++ post) ∧
      ((∀ e ∈ entries, ValidName e.name) → (entries.map DirEntry.name).Nodup →
        ((cs.map (fun c => c.map (fun fi => Join [basedir, fi.name]))).flatten).Nodup) := by
  obtain ⟨cs, hcs, hlen, _⟩ := selectAll_ok srt basedir keep hK L O (buckets patterns entries)
  have hsf := selectFiles_of_selectAll srt patterns basedir keep L O entries cs hcs
  have hres : resultPaths basedir cs =
      (cs.map (fun c => c.map (fun fi => Join [basedir, fi.name]))).flatten := rfl
  rw [hres] at hsf
  have hsel : ∀ (i : Nat) (c : List FileInfo), cs[i]? = some c →
      i < patterns.length ∧ c.Sublist (srt (assigned patterns i entries)) := by
    intro i c hc
    obtain ⟨_, hget⟩ := selectAll_inv srt basedir keep L O _ cs hcs
    obtain ⟨b, hb, hsb⟩ := hget i c hc
    rw [buckets_getElem?] at hb
    by_cases hlt : i < patterns.length
    · simp only [hlt, if_true, Option.some.injEq] at hb
      subst hb
      exact ⟨hlt, selectBucket_sublist srt basedir keep L O _ c hsb⟩
    · simp [hlt] at hb
  refine ⟨cs, hcs, by rw [hlen, buckets_length], hsf, ?_, ?_, ?_, ?_⟩
  · intro env henv hL hO
    rw [getMatchingFiles_eq srt env keep patterns basedir entries henv, hL, hO, hsf]
  · intro i c hc
    obtain ⟨hlt, hsub⟩ := hsel i c hc
    refine ⟨(hs.sorted _).sublist hsub, assigned patterns i entries,
      by rw [buckets_getElem?, if_pos hlt], hsub, ?_⟩
    intro fi hfi
    have hfa : fi ∈ assigned patterns i entries := (hs.perm _).subset (hsub.subset hfi)
    obtain ⟨e, he, hd, hne, hinfo, _⟩ := assigned_origin patterns i entries fi hfa
    exact ⟨hfa, e, he, hd, hne, hinfo⟩
  · intro i j ci cj hij hi hj
    apply flatten_split_two String _ i j _ _ hij
    · rw [List.getElem?_map, hi]; rfl
    · rw [List.getElem?_map, hj]; rfl
  · intro hvalid hnodup
    have hvalidfi : ∀ (i : Nat) (c : List FileInfo), cs[i]? = some c → ∀ fi ∈ c,
        fi ∈ assigned patterns i entries ∧ ValidName fi.name := by
      intro i c hc fi hfi
      obtain ⟨_, hsub⟩ := hsel i c hc
      have hfa : fi ∈ assigned patterns i entries := (hs.perm _).subset (hsub.subset hfi)
      obtain ⟨e, he, _, hne, _⟩ := assigned_origin patterns i entries fi hfa
      exact ⟨hfa, by rw [hne]; exact hvalid e he⟩
    rw [List.nodup_flatten]
    constructor
    · intro l hl
      obtain ⟨c, hcmem, rfl⟩ := List.mem_map.mp hl
      obtain ⟨i, hi⟩ := List.mem_iff_getElem?.mp hcmem
      obtain ⟨_, hsub⟩ := hsel i c hi
      have hnn := selected_names_nodup srt hs patterns entries hnodup i c hsub
      apply List.Nodup.map_on _ (List.Nodup.of_map _ hnn)
      intro x hx y hy hxy
      have hname : x.name = y.name :=
        Join_injective basedir _ _ (hvalidfi i c hi x hx).2 (hvalidfi i c hi y hy).2 hxy
      exact List.inj_on_of_nodup_map hnn hx hy hname
    · rw [List.pairwise_map, List.pairwise_iff_getElem]
      intro i j hi hj hij
      intro p hp1 hp2
      obtain ⟨x, hx, hxp⟩ := List.mem_map.mp hp1
      obtain ⟨y, hy, hyp⟩ := List.mem_map.mp hp2
      have hci : cs[i]? = some cs[i] := List.getElem?_eq_getElem hi
      have hcj : cs[j]? = some cs[j] := List.getElem?_eq_getElem hj
      obtain ⟨hxa, hxv⟩ := hvalidfi i _ hci x hx
      obtain ⟨hya, hyv⟩ := hvalidfi j _ hcj y hy
      have hname : x.name = y.name :=
        Join_injective basedir _ _ hxv hyv (by rw [hxp, hyp])
      have := same_name_same_bucket patterns entries i j x y hxa hya hname
      omega

/-! ## The model run on sample data -/

theorem insertionSortByTime_spec : SortSliceSpec insertionSortByTime where
  perm := fun l => List.perm_insertionSort notLater l
  sorted := fun l => List.sorted_insertionSort notLater l

/-- C1, at five files with distinct times and `keep = 2`: the candidates are exactly
the three oldest, and they are what is returned. -/
theorem retention_cut_witness :
    ∃ cand withheld : List FileInfo,
      insertionSortByTime fiveBucket = cand ++ withheld ∧ (withheld.length : Int) = 2 ∧
      cand = [⟨"app.log.5", 10⟩, ⟨"app.log.4", 20⟩, ⟨"app.log.3", 30⟩] ∧
      selectFiles insertionSortByTime [appLogPattern] "/var/log" 2 [] [] fiveFiles =
        .ok ["/var/log/app.log.5", "/var/log/app.log.4", "/var/log/app.log.3"] := by
  obtain ⟨cand, withheld, hsplit, _, hlen, _, _, ⟨cs, hcs, hc⟩, _⟩ :=
    retention_cut insertionSortByTime insertionSortByTime_spec [appLogPattern] "/var/log" 2
      (by decide) fiveFiles 0 fiveBucket (by decide) (by decide)
  have hrun : selectAll insertionSortByTime "/var/log" 2 [] [] (buckets [appLogPattern] fiveFiles)
      = .ok [[⟨"app.log.5", 10⟩, ⟨"app.log.4", 20⟩, ⟨"app.log.3", 30⟩]] := by decide
  rw [hrun] at hcs
  simp only [Except.ok.injEq] at hcs
  subst hcs
  simp only [List.getElem?_cons_zero, Option.some.injEq] at hc
  exact ⟨cand, withheld, hsplit, hlen, hc.symm, by decide⟩

/-- C2, at a listing whose buckets hold five and one files, with `keep = 5`:
nothing is returned; and with `keep = 2` the bucket of one file is emptied. -/
theorem small_bucket_contributes_nothing_witness :
    selectFiles insertionSortByTime [appLogPattern, errLogPattern] "/var/log" 5
        ["/var/log/app.log.4"] [] mixedListing = .ok [] ∧
    ∃ cs, selectAll insertionSortByTime "/var/log" 2 ["/var/log/app.log.4"] []
        (buckets [appLogPattern, errLogPattern] mixedListing) = .ok cs ∧ cs[1]? = some [] := by
  have h := small_bucket_contributes_nothing insertionSortByTime insertionSortByTime_spec
    [appLogPattern, errLogPattern] "/var/log" 5 ["/var/log/app.log.4"] [] mixedListing
  have h2 := small_bucket_contributes_nothing insertionSortByTime insertionSortByTime_spec
    [appLogPattern, errLogPattern] "/var/log" 2 ["/var/log/app.log.4"] [] mixedListing
  obtain ⟨cs, hcs, hc, _⟩ := h2.1 1 [⟨"err.log.1", 5⟩] (by decide) (by decide)
  exact ⟨(h.2 (by decide)).1, cs, hcs, hc⟩

/-- C3, at the sample system with `keep = 2`: the link target `app.log.4` and the
open file `app.log.5` are left out, only `app.log.3` is returned. -/
theorem no_excluded_path_selected_witness :
    linkedFiles sampleEnv "/var/log" = ["/var/log/app.log.4"] ∧
    opendFiles sampleEnv "/var/log" = ["/var/log/app.log.5"] ∧
    getMatchingFiles insertionSortByTime sampleEnv 2 [appLogPattern, errLogPattern] "/var/log"
      = .ok ["/var/log/app.log.3"] ∧
    ∃ r, getMatchingFiles insertionSortByTime sampleEnv 2 [appLogPattern, errLogPattern]
        "/var/log" = .ok r ∧
      ∀ p ∈ r, p ∉ linkedFiles sampleEnv "/var/log" ∧ p ∉ opendFiles sampleEnv "/var/log" :=
  ⟨by decide, by decide, by decide,
    (no_excluded_path_selected insertionSortByTime [appLogPattern, errLogPattern] "/var/log" 2
      (by decide) mixedListing).1 sampleEnv rfl⟩

/-- C4, at the sample listing: `app.log.3` matches both patterns of
`[app\.log\.\d+, .*]` and is in bucket 0 only; with `[app\.log\.\d+, err\.log]` the
name `notes.txt` matches nothing, and neither its path nor that of the directory
`archive` is returned. -/
theorem first_match_wins_witness :
    ((∃ b, (buckets [appLogPattern, anyPattern] mixedListing)[0]? = some b ∧
        (⟨"app.log.3", 30⟩ : FileInfo) ∈ b) ∧
      ∀ (j : Nat) (b : List FileInfo),
        (buckets [appLogPattern, anyPattern] mixedListing)[j]? = some b →
        (∃ fi ∈ b, fi.name = "app.log.3") → j = 0) ∧
    (∀ r, selectFiles insertionSortByTime [appLogPattern, errLogPattern] "/var/log" 0 [] []
        mixedListing = .ok r → "/var/log/notes.txt" ∉ r ∧ "/var/log/archive" ∉ r) ∧
    selectFiles insertionSortByTime [appLogPattern, errLogPattern] "/var/log" 0 [] []
        mixedListing =
      .ok ["/var/log/app.log.5", "/var/log/app.log.4", "/var/log/app.log.3",
        "/var/log/app.log.2", "/var/log/app.log.1", "/var/log/err.log.1"] := by
  have h1 := first_match_wins insertionSortByTime [appLogPattern, anyPattern] "/var/log" 0
    [] [] mixedListing
  have h2 := first_match_wins insertionSortByTime [appLogPattern, errLogPattern] "/var/log" 0
    [] [] mixedListing
  refine ⟨h1.1 (plainFile "app.log.3" 30) (by decide) rfl 30 rfl 0 appLogPattern rfl
    (by decide) (by intro j q hj; omega), ?_, by decide⟩
  intro r hr
  exact ⟨(h2.2.2.2.1 insertionSortByTime_spec (by decide) (plainFile "notes.txt" 2)
      (by decide) r hr).1 (by decide),
    (h2.2.2.2.1 insertionSortByTime_spec (by decide) ⟨"archive", true, false, none, some 1⟩
      (by decide) r hr).2 (by decide) rfl⟩

/-- C10, at the sample system with `keep = 1` and patterns `[app\.log\.\d+, .*]`:
first the remaining files of bucket 0, oldest first, then those of bucket 1, and no
path twice. -/
theorem result_order_witness :
    ∃ cs : List (List FileInfo),
      selectAll insertionSortByTime "/var/log" 1 (linkedFiles sampleEnv "/var/log")
        (opendFiles sampleEnv "/var/log") (buckets [appLogPattern, anyPattern] mixedListing)
        = .ok cs ∧
      cs.length = 2 ∧
      getMatchingFiles insertionSortByTime sampleEnv 1 [appLogPattern, anyPattern] "/var/log"
        = .ok (cs.map (fun c => c.map (fun fi => Join ["/var/log", fi.name]))).flatten ∧
      ((cs.map (fun c => c.map (fun fi => Join ["/var/log", fi.name]))).flatten).Nodup ∧
      getMatchingFiles insertionSortByTime sampleEnv 1 [appLogPattern, anyPattern] "/var/log"
        = .ok ["/var/log/app.log.3", "/var/log/app.log.2", "/var/log/notes.txt",
            "/var/log/err.log.1"] := by
  obtain ⟨cs, hcs, hlen, _, henv, _, _, hnd⟩ :=
    result_order insertionSortByTime insertionSortByTime_spec [appLogPattern, anyPattern]
      "/var/log" 1 (by decide) (linkedFiles sampleEnv "/var/log")
      (opendFiles sampleEnv "/var/log") mixedListing
  exact ⟨cs, hcs, hlen, henv sampleEnv rfl rfl rfl, hnd (by decide) (by decide), by decide⟩

/-! ## Reading the pattern source -/

theorem cutNewline_none : ∀ (d : List Char), cutNewline d = none →
    rawLines d = if d = [] then [] else [d]
  | [], _ => rfl
  | c :: cs, h => by
    unfold cutNewline at h
    by_cases hc : c = '\n'
    · simp [hc] at h
    · cases hcs : cutNewline cs with
      | some r => simp [hc, hcs] at h
      | none =>
        have ih := cutNewline_none cs hcs
        by_cases he : cs = []
        · subst he
          simp [rawLines, hc]
        · simp [rawLines, hc, ih, he]

theorem cutNewline_some : ∀ (d line rest : List Char), cutNewline d = some (line, rest) →
    rawLines d = line :: rawLines rest ∧ rest.length < d.length
  | [], _, _, h => by simp [cutNewline] at h
  | c :: cs, line, rest, h => by
    unfold cutNewline at h
    by_cases hc : c = '\n'
    · simp only [hc, if_true, Option.some.injEq, Prod.mk.injEq] at h
      obtain ⟨h1, h2⟩ := h
      subst h1 h2
      simp [rawLines, hc]
    · cases hcs : cutNewline cs with
      | none => simp [hc, hcs] at h
      | some r =>
        obtain ⟨l, r2⟩ := r
        simp only [hc, hcs, if_false, Option.some.injEq, Prod.mk.injEq] at h
        obtain ⟨h1, h2⟩ := h
        subst h1 h2
        obtain ⟨ih1, ih2⟩ := cutNewline_some cs l r2 hcs
        refine ⟨by simp [rawLines, hc, ih1], ?_⟩
        simp only [List.length_cons]
        omega

/-- The loop of `readPatternsFromFile` adds the patterns of the lines, as long as
every line fits the buffer of the scanner. -/
theorem readLoop_eq (compile : String → Option Regexp) :
    ∀ (fuel : Nat) (data : List Char) (acc : List Regexp), data.length < fuel →
      (∀ l ∈ rawLines data, byteLen l < maxScanTokenSize) →
      readLoop compile fuel data acc =
        acc ++ ((rawLines data).map dropCR).filterMap
          (fun line => if line = [] ∨ line.head? = some '#' then none else compile ⟨line⟩)
  | 0, _, _, h, _ => by omega
  | fuel + 1, data, acc, hfuel, hshort => by
    unfold readLoop scan
    by_cases hd : data = []
    · subst hd
      simp [rawLines]
    · cases hcut : cutNewline data with
      | none =>
        have hraw := cutNewline_none data hcut
        rw [if_neg hd] at hraw
        have hlen : ¬ (maxScanTokenSize ≤ byteLen data) := by
          have := hshort data (by rw [hraw]; simp)
          omega
        have hnil : readLoop compile fuel [] = fun acc => acc := by
          funext a
          cases fuel <;> simp [readLoop, scan]
        simp only [hd, if_false, hlen, hraw, List.map_cons, List.map_nil,
          List.filterMap_cons, List.filterMap_nil, hnil]
        by_cases h1 : dropCR data = []
        · simp [h1]
        · by_cases h2 : (dropCR data).head? = some '#'
          · simp [h1, h2]
          · cases hc : compile ⟨dropCR data⟩ <;> simp [h1, h2, hc]
      | some r =>
        obtain ⟨line, rest⟩ := r
        obtain ⟨hraw, hlt⟩ := cutNewline_some data line rest hcut
        have hlen : ¬ (maxScanTokenSize ≤ byteLen line) := by
          have := hshort line (by rw [hraw]; simp)
          omega
        have hrest : ∀ l ∈ rawLines rest, byteLen l < maxScanTokenSize :=
          fun l hl => hshort l (by rw [hraw]; simp [hl])
        have ih := fun acc2 => readLoop_eq compile fuel rest acc2 (by omega) hrest
        simp only [hd, if_false, hlen, hraw, List.map_cons, List.filterMap_cons, ih]
        by_cases h1 : dropCR line = []
        · simp [h1]
        · by_cases h2 : (dropCR line).head? = some '#'
          · simp [h1, h2]
          · cases hc : compile ⟨dropCR line⟩ <;> simp [h1, h2, hc]

/-- C5 (amended): `readPatternsFromFile` returns no error for any text; and for every
text whose lines are shorter than the scanner's buffer (`bufio.MaxScanTokenSize`
bytes) it returns exactly the compiled patterns of the lines that are neither empty
nor start with `#`, in the order of the lines; lines that do not compile are
skipped. -/
theorem readPatternsFromFile_lines (compile : String → Option Regexp) (content : String) :
    (readPatternsFromFile compile content).2 = none ∧
    ((∀ l ∈ rawLines content.data, byteLen l < maxScanTokenSize) →
      readPatternsFromFile compile content = (specPatterns compile content, none)) := by
  refine ⟨rfl, ?_⟩
  intro hshort
  unfold readPatternsFromFile specPatterns
  rw [readLoop_eq compile _ content.data [] (by omega) hshort]
  simp

/-- C5, at a source of three pattern lines of which the second is malformed (with a
comment line, an empty line and a CR-LF line end): two patterns, no error. -/
theorem readPatternsFromFile_lines_witness :
    (∀ l ∈ rawLines threeLineSource.data, byteLen l < maxScanTokenSize) ∧
    readPatternsFromFile sampleCompile threeLineSource =
      (specPatterns sampleCompile threeLineSource, none) ∧
    (specPatterns sampleCompile threeLineSource).map Regexp.source =
      ["app\\.log", "out\\.log"] :=
  ⟨by decide, (readPatternsFromFile_lines sampleCompile threeLineSource).2 (by decide),
    by decide⟩

theorem cutNewline_replicate (r : List Char) :
    ∀ (n : Nat), cutNewline (List.replicate n 'a' ++ '\n' :: r) = some (List.replicate n 'a', r)
  | 0 => by simp [cutNewline]
  | n + 1 => by
    have ih := cutNewline_replicate r n
    simp [List.replicate_succ, cutNewline, ih]

theorem byteLen_replicate : ∀ (n : Nat), byteLen (List.replicate n 'a') = n
  | 0 => rfl
  | n + 1 => by
    have ih := byteLen_replicate n
    have h1 : Char.utf8Size 'a' = 1 := by decide
    simp only [byteLen, List.replicate_succ, List.map_cons, List.sum_cons, h1] at ih ⊢
    omega

theorem dropCR_replicate (n : Nat) : dropCR (List.replicate n 'a') = List.replicate n 'a' := by
  unfold dropCR
  have h : (List.replicate n 'a').getLast? ≠ some '\r' := by
    intro hl
    have hm := List.mem_of_mem_getLast? hl
    have := List.eq_of_mem_replicate hm
    exact absurd this (by decide)
  rw [if_neg h]

/-- A first line of at least `maxScanTokenSize` bytes ends the scan: no pattern is
returned, although the text has two lines that compile. -/
theorem long_line_general (n : Nat) (hn : maxScanTokenSize ≤ n) :
    readPatternsFromFile sampleCompile ⟨List.replicate n 'a' ++ ['\n', 'b']⟩ = ([], none) ∧
    (specPatterns sampleCompile ⟨List.replicate n 'a' ++ ['\n', 'b']⟩).map Regexp.source =
      [⟨List.replicate n 'a'⟩, "b"] := by
  have hcut := cutNewline_replicate ['b'] n
  constructor
  · have hne : List.replicate n 'a' ++ ['\n', 'b'] ≠ [] := by simp
    simp only [readPatternsFromFile, readLoop, scan, hne, if_false, hcut, byteLen_replicate,
      hn, if_true]
  · obtain ⟨hraw, _⟩ := cutNewline_some _ _ _ hcut
    have hb : rawLines ['b'] = [['b']] := by decide
    have hpos : 0 < n := Nat.lt_of_lt_of_le (by decide) hn
    obtain ⟨m, rfl⟩ : ∃ m, n = m + 1 := ⟨n - 1, by omega⟩
    have hdb : dropCR ['b'] = ['b'] := by decide
    have hcb : sampleCompile ⟨['b']⟩ = some ⟨⟨['b']⟩, fun n => decide (n = ⟨['b']⟩)⟩ := rfl
    have hcount : ∀ c : Char, c ≠ 'a' → List.count c (List.replicate (m + 1) 'a') = 0 := by
      intro c hc
      rw [List.count_replicate]
      have : ¬ (('a' == c) = true) := by simpa using fun h => hc h.symm
      simp [this]
    have hca : sampleCompile ⟨List.replicate (m + 1) 'a'⟩ =
        some ⟨⟨List.replicate (m + 1) 'a'⟩,
          fun n => decide (n = ⟨List.replicate (m + 1) 'a'⟩)⟩ := by
      unfold sampleCompile
      rw [hcount '(' (by decide), hcount ')' (by decide)]
      simp
    have hhead : (List.replicate (m + 1) 'a').head? ≠ some '#' := by
      simp [List.replicate_succ]
    have hnil : List.replicate (m + 1) 'a' ≠ [] := by simp [List.replicate_succ]
    simp only [specPatterns, hraw, hb, List.map_cons, List.map_nil, dropCR_replicate, hdb,
      List.filterMap_cons, List.filterMap_nil, hnil, hhead, or_self, if_false, hca]
    have hbh : ¬ (['b'] = [] ∨ ['b'].head? = some '#') := by decide
    simp only [hbh, if_false, hcb]
    rfl

/-- C5 as stated fails: on a text whose first line has 65536 bytes, followed by the
line `b`, the function returns no pattern although two lines compile. -/
theorem long_line_counterexample :
    readPatternsFromFile sampleCompile longLineSource = ([], none) ∧
    (specPatterns sampleCompile longLineSource).map Regexp.source =
      [⟨List.replicate 65536 'a'⟩, "b"] ∧
    readPatternsFromFile sampleCompile longLineSource ≠
      (specPatterns sampleCompile longLineSource, none) := by
  have hgen : ∀ n : Nat, maxScanTokenSize ≤ n →
      readPatternsFromFile sampleCompile ⟨List.replicate n 'a' ++ ['\n', 'b']⟩ ≠
        (specPatterns sampleCompile ⟨List.replicate n 'a' ++ ['\n', 'b']⟩, none) := by
    intro n hn heq
    have h := long_line_general n hn
    rw [h.1] at heq
    have h3 := congrArg (fun p : List Regexp × Option String => p.1.map Regexp.source) heq
    simp only [h.2, List.map_nil] at h3
    exact absurd h3.symm (List.cons_ne_nil _ _)
  exact ⟨(long_line_general 65536 (by decide)).1, (long_line_general 65536 (by decide)).2,
    hgen 65536 (by decide)⟩

/-! ## The calls of `compressFile` -/

theorem mem_prefix_of_mem_takeWhile (x a : Call) :
    ∀ (l pre post : List Call), l = pre ++ x :: post →
      a ∈ l.takeWhile (fun c => decide (c ≠ x)) → a ∈ pre
  | _, [], post, h, ha => by
    subst h
    simp [List.takeWhile] at ha
  | _, p :: pre, post, h, ha => by
    subst h
    by_cases hp : p = x
    · simp [List.takeWhile, hp] at ha
    · simp only [List.cons_append, List.takeWhile_cons, ne_eq, hp, not_false_eq_true,
        decide_True, if_true, List.mem_cons] at ha
      rcases ha with ha | ha
      · simp [ha]
      · exact List.mem_cons_of_mem _
          (mem_prefix_of_mem_takeWhile x a (pre ++ x :: post) pre post rfl ha)

/-- The runs of `compressSteps`, one for each place where it returns. -/
theorem compressSteps_cases (ok : Call → Bool) (preserveAttrs : Bool) :
    ((ok Call.openSrc = false) ∧
      compressSteps ok preserveAttrs =
        ([Call.openSrc],
          some Call.openSrc)) ∨
    ((ok Call.openSrc = true ∧ ok Call.createTmp = false) ∧
      compressSteps ok preserveAttrs =
        ([Call.openSrc, Call.createTmp],
          some Call.createTmp)) ∨
    ((ok Call.openSrc = true ∧ ok Call.createTmp = true ∧ ok Call.copy = false) ∧
      compressSteps ok preserveAttrs =
        ([Call.openSrc, Call.createTmp, Call.copy, Call.closeSrc, Call.closeGzip, Call.removeTmp, Call.closeTmp],
          some Call.copy)) ∨
    ((ok Call.openSrc = true ∧ ok Call.createTmp = true ∧ ok Call.copy = true ∧ ok Call.rename = false) ∧
      compressSteps ok preserveAttrs =
        ([Call.openSrc, Call.createTmp, Call.copy, Call.closeSrc, Call.closeGzip, Call.rename, Call.removeTmp, Call.closeTmp],
          some Call.rename)) ∨
    ((ok Call.openSrc = true ∧ ok Call.createTmp = true ∧ ok Call.copy = true ∧ ok Call.rename = true ∧ ok Call.reopenSrc = false ∧ preserveAttrs = true) ∧
      compressSteps ok preserveAttrs =
        ([Call.openSrc, Call.createTmp, Call.copy, Call.closeSrc, Call.closeGzip, Call.rename, Call.reopenSrc, Call.closeTmp],
          some Call.reopenSrc)) ∨
    ((ok Call.openSrc = true ∧ ok Call.createTmp = true ∧ ok Call.copy = true ∧ ok Call.rename = true ∧ ok Call.reopenSrc = true ∧ ok Call.statSrc = false ∧ preserveAttrs = true) ∧
      compressSteps ok preserveAttrs =
        ([Call.openSrc, Call.createTmp, Call.copy, Call.closeSrc, Call.closeGzip, Call.rename, Call.reopenSrc, Call.statSrc, Call.closeSrcAgain, Call.closeTmp],
          some Call.statSrc)) ∨
    ((ok Call.openSrc = true ∧ ok Call.createTmp = true ∧ ok Call.copy = true ∧ ok Call.rename = true ∧ ok Call.reopenSrc = true ∧ ok Call.statSrc = true ∧ ok Call.removeSrc = false ∧ preserveAttrs = true) ∧
      compressSteps ok preserveAttrs =
        ([Call.openSrc, Call.createTmp, Call.copy, Call.closeSrc, Call.closeGzip, Call.rename, Call.reopenSrc, Call.statSrc, Call.closeSrcAgain, Call.removeSrc, Call.closeTmp],
          some Call.removeSrc)) ∨
    ((ok Call.openSrc = true ∧ ok Call.createTmp = true ∧ ok Call.copy = true ∧ ok Call.rename = true ∧ ok Call.reopenSrc = true ∧ ok Call.statSrc = true ∧ ok Call.removeSrc = true ∧ ok Call.openDst = false ∧ preserveAttrs = true) ∧
      compressSteps ok preserveAttrs =
        ([Call.openSrc, Call.createTmp, Call.copy, Call.closeSrc, Call.closeGzip, Call.rename, Call.reopenSrc, Call.statSrc, Call.closeSrcAgain, Call.removeSrc, Call.openDst, Call.closeTmp],
          some Call.openDst)) ∨
    ((ok Call.openSrc = true ∧ ok Call.createTmp = true ∧ ok Call.copy = true ∧ ok Call.rename = true ∧ ok Call.reopenSrc = true ∧ ok Call.statSrc = true ∧ ok Call.removeSrc = true ∧ ok Call.openDst = true ∧ ok Call.chmodDst = false ∧ preserveAttrs = true) ∧
      compressSteps ok preserveAttrs =
        ([Call.openSrc, Call.createTmp, Call.copy, Call.closeSrc, Call.closeGzip, Call.rename, Call.reopenSrc, Call.statSrc, Call.closeSrcAgain, Call.removeSrc, Call.openDst, Call.chmodDst, Call.closeTmp],
          some Call.chmodDst)) ∨
    ((ok Call.openSrc = true ∧ ok Call.createTmp = true ∧ ok Call.copy = true ∧ ok Call.rename = true ∧ ok Call.reopenSrc = true ∧ ok Call.statSrc = true ∧ ok Call.removeSrc = true ∧ ok Call.openDst = true ∧ ok Call.chmodDst = true ∧ ok Call.chownDst = false ∧ preserveAttrs = true) ∧
      compressSteps ok preserveAttrs =
        ([Call.openSrc, Call.createTmp, Call.copy, Call.closeSrc, Call.closeGzip, Call.rename, Call.reopenSrc, Call.statSrc, Call.closeSrcAgain, Call.removeSrc, Call.openDst, Call.chmodDst, Call.chownDst, Call.closeTmp],
          some Call.chownDst)) ∨
    ((ok Call.openSrc = true ∧ ok Call.createTmp = true ∧ ok Call.copy = true ∧ ok Call.rename = true ∧ ok Call.reopenSrc = true ∧ ok Call.statSrc = true ∧ ok Call.removeSrc = true ∧ ok Call.openDst = true ∧ ok Call.chmodDst = true ∧ ok Call.chownDst = true ∧ preserveAttrs = true) ∧
      compressSteps ok preserveAttrs =
        ([Call.openSrc, Call.createTmp, Call.copy, Call.closeSrc, Call.closeGzip, Call.rename, Call.reopenSrc, Call.statSrc, Call.closeSrcAgain, Call.removeSrc, Call.openDst, Call.chmodDst, Call.chownDst, Call.closeTmp],
          none)) ∨
    ((ok Call.openSrc = true ∧ ok Call.createTmp = true ∧ ok Call.copy = true ∧ ok Call.rename = true ∧ ok Call.removeSrc = false ∧ preserveAttrs = false) ∧
      compressSteps ok preserveAttrs =
        ([Call.openSrc, Call.createTmp, Call.copy, Call.closeSrc, Call.closeGzip, Call.rename, Call.removeSrc, Call.closeTmp],
          some Call.removeSrc)) ∨
    ((ok Call.openSrc = true ∧ ok Call.createTmp = true ∧ ok Call.copy = true ∧ ok Call.rename = true ∧ ok Call.removeSrc = true ∧ preserveAttrs = false) ∧
      compressSteps ok preserveAttrs =
        ([Call.openSrc, Call.createTmp, Call.copy, Call.closeSrc, Call.closeGzip, Call.rename, Call.removeSrc, Call.closeTmp],
          none)) := by
  unfold compressSteps
  cases h1 : ok Call.openSrc
  · simp
  cases h2 : ok Call.createTmp
  · simp
  cases h3 : ok Call.copy
  · simp
  cases h4 : ok Call.rename
  · simp
  cases hp : preserveAttrs
  · cases h5 : ok Call.removeSrc <;> simp
  cases h5 : ok Call.reopenSrc
  · simp
  cases h6 : ok Call.statSrc
  · simp
  cases h7 : ok Call.removeSrc
  · simp
  cases h8 : ok Call.openDst
  · simp
  cases h9 : ok Call.chmodDst
  · simp
  cases h10 : ok Call.chownDst <;> simp

/-- C7: for every choice of which calls succeed and both values of `preserveAttrs`:
the source is removed only after a successful rename (so a run that ends without the
source has the destination in place); a checked call that fails is the last checked
call made and is the error returned; and when the copy fails, the temporary file is
removed and no call touches the source name or the destination name. -/
theorem compressSteps_safe (ok : Call → Bool) (preserveAttrs : Bool) :
    (∀ pre post : List Call,
      (compressSteps ok preserveAttrs).1 = pre ++ Call.removeSrc :: post →
        Call.rename ∈ pre ∧ ok Call.rename = true) ∧
    (∀ s : Names, s.src = true →
      (runCalls ok s (compressSteps ok preserveAttrs).1).src = false →
        ok Call.rename = true ∧ (runCalls ok s (compressSteps ok preserveAttrs).1).dst = true) ∧
    (∀ c ∈ (compressSteps ok preserveAttrs).1, c.checked = true → ok c = false →
      (compressSteps ok preserveAttrs).2 = some c ∧
      ((compressSteps ok preserveAttrs).1.filter Call.checked).getLast? = some c) ∧
    ((compressSteps ok preserveAttrs).2 = none →
      ∀ c ∈ (compressSteps ok preserveAttrs).1, c.checked = true → ok c = true) ∧
    (ok Call.openSrc = true → ok Call.createTmp = true → ok Call.copy = false →
      (compressSteps ok preserveAttrs).2 = some Call.copy ∧
      Call.removeTmp ∈ (compressSteps ok preserveAttrs).1 ∧
      (∀ c ∈ (compressSteps ok preserveAttrs).1, c.touchesSrcOrDst = false) ∧
      ∀ s : Names,
        (runCalls ok s (compressSteps ok preserveAttrs).1).src = s.src ∧
        (runCalls ok s (compressSteps ok preserveAttrs).1).dst = s.dst ∧
        (ok Call.removeTmp = true →
          (runCalls ok s (compressSteps ok preserveAttrs).1).tmp = false)) := by
  refine ⟨?_, ?_, ?_, ?_, ?_⟩
  · have hr : Call.removeSrc ∈ (compressSteps ok preserveAttrs).1 →
        Call.rename ∈
          ((compressSteps ok preserveAttrs).1).takeWhile
            (fun c => decide (c ≠ Call.removeSrc)) ∧
        ok Call.rename = true := by
      rcases compressSteps_cases ok preserveAttrs with
        ⟨hc, heq⟩ | ⟨hc, heq⟩ | ⟨hc, heq⟩ | ⟨hc, heq⟩ | ⟨hc, heq⟩ | ⟨hc, heq⟩ | ⟨hc, heq⟩ |
        ⟨hc, heq⟩ | ⟨hc, heq⟩ | ⟨hc, heq⟩ | ⟨hc, heq⟩ | ⟨hc, heq⟩ | ⟨hc, heq⟩ <;>
      simp only [heq] <;> clear heq <;>
      simp_all [List.takeWhile]
    intro pre post h
    have hmem : Call.removeSrc ∈ (compressSteps ok preserveAttrs).1 := by
      rw [h]; simp
    exact ⟨mem_prefix_of_mem_takeWhile _ _ _ pre post h (hr hmem).1, (hr hmem).2⟩
  · intro s hs
    rcases Bool.eq_false_or_eq_true (ok Call.removeTmp) with hrt | hrt <;>
    rcases compressSteps_cases ok preserveAttrs with
      ⟨hc, heq⟩ | ⟨hc, heq⟩ | ⟨hc, heq⟩ | ⟨hc, heq⟩ | ⟨hc, heq⟩ | ⟨hc, heq⟩ | ⟨hc, heq⟩ |
        ⟨hc, heq⟩ | ⟨hc, heq⟩ | ⟨hc, heq⟩ | ⟨hc, heq⟩ | ⟨hc, heq⟩ | ⟨hc, heq⟩ <;>
      simp only [heq] <;> clear heq <;>
    simp_all [runCalls, applyCall]
  · rcases compressSteps_cases ok preserveAttrs with
      ⟨hc, heq⟩ | ⟨hc, heq⟩ | ⟨hc, heq⟩ | ⟨hc, heq⟩ | ⟨hc, heq⟩ | ⟨hc, heq⟩ | ⟨hc, heq⟩ |
        ⟨hc, heq⟩ | ⟨hc, heq⟩ | ⟨hc, heq⟩ | ⟨hc, heq⟩ | ⟨hc, heq⟩ | ⟨hc, heq⟩ <;>
      simp only [heq] <;> clear heq <;>
    simp_all [Call.checked, List.filter]
  · rcases compressSteps_cases ok preserveAttrs with
      ⟨hc, heq⟩ | ⟨hc, heq⟩ | ⟨hc, heq⟩ | ⟨hc, heq⟩ | ⟨hc, heq⟩ | ⟨hc, heq⟩ | ⟨hc, heq⟩ |
        ⟨hc, heq⟩ | ⟨hc, heq⟩ | ⟨hc, heq⟩ | ⟨hc, heq⟩ | ⟨hc, heq⟩ | ⟨hc, heq⟩ <;>
      simp only [heq] <;> clear heq <;>
    simp_all [Call.checked]
  · intro h1 h2 h3
    rcases Bool.eq_false_or_eq_true (ok Call.removeTmp) with hrt | hrt <;>
    rcases compressSteps_cases ok preserveAttrs with
      ⟨hc, heq⟩ | ⟨hc, heq⟩ | ⟨hc, heq⟩ | ⟨hc, heq⟩ | ⟨hc, heq⟩ | ⟨hc, heq⟩ | ⟨hc, heq⟩ |
        ⟨hc, heq⟩ | ⟨hc, heq⟩ | ⟨hc, heq⟩ | ⟨hc, heq⟩ | ⟨hc, heq⟩ | ⟨hc, heq⟩ <;>
      simp only [heq] <;> clear heq <;>
    simp_all [Call.touchesSrcOrDst, runCalls, applyCall]

/-- C7, at a run in which only the copy fails, with `preserveAttrs` on: the error
is the copy, the temporary file is removed, and the three names end as they began
but for the temporary file. -/
theorem compressSteps_safe_witness :
    compressSteps (fun c => decide (c ≠ Call.copy)) true =
      ([Call.openSrc, Call.createTmp, Call.copy, Call.closeSrc, Call.closeGzip,
        Call.removeTmp, Call.closeTmp], some Call.copy) ∧
    runCalls (fun c => decide (c ≠ Call.copy)) ⟨true, false, false⟩
      (compressSteps (fun c => decide (c ≠ Call.copy)) true).1 = ⟨true, false, false⟩ ∧
    ((compressSteps (fun c => decide (c ≠ Call.copy)) true).2 = some Call.copy ∧
      Call.removeTmp ∈ (compressSteps (fun c => decide (c ≠ Call.copy)) true).1 ∧
      ∀ c ∈ (compressSteps (fun c => decide (c ≠ Call.copy)) true).1,
        c.touchesSrcOrDst = false) := by
  have h := (compressSteps_safe (fun c => decide (c ≠ Call.copy)) true).2.2.2.2
    (by decide) (by decide) (by decide)
  exact ⟨by decide, by decide, h.1, h.2.1, h.2.2.1⟩

/-! ## The destination name -/

theorem formatNat_ne_nil (n : Nat) : formatNat n ≠ [] := by
  unfold formatNat
  by_cases h : n = 0
  · simp [h]
  · rw [if_neg h]
    intro he
    have h2 : Nat.digits 10 n = [] := by simpa using he
    exact h (Nat.digits_eq_nil_iff_eq_zero.mp h2)

/-- C8, the code at a failing input: in `/var/log` the link `current` stores the
relative destination `app.log.4`, the working directory is `/root`.  `linkedFiles`
holds `/root/app.log.4`, not `/var/log/app.log.4`, and the link target is returned
for compression among three paths. -/
theorem relative_link_target_selected :
    linkedFiles relativeLinkEnv "/var/log" = ["/root/app.log.4"] ∧
    "/var/log/app.log.4" ∉ linkedFiles relativeLinkEnv "/var/log" ∧
    getMatchingFiles insertionSortByTime relativeLinkEnv 2 [appLogPattern] "/var/log" =
      .ok ["/var/log/app.log.5", "/var/log/app.log.4", "/var/log/app.log.3"] := by
  decide

/-- C9, the code at a failing input: the target directory is given as `logs`, the
working directory is `/srv`, and a process has `/srv/logs/app.log.5` open.
`opendFiles` is empty, the returned paths are relative, and the open file is among
them. -/
theorem relative_dir_open_file_selected :
    opendFiles relativeDirEnv "logs" = [] ∧
    Abs relativeDirEnv.cwd "logs/app.log.5" = some "/srv/logs/app.log.5" ∧
    getMatchingFiles insertionSortByTime relativeDirEnv 2 [appLogPattern] "logs" =
      .ok ["logs/app.log.5", "logs/app.log.4", "logs/app.log.3"] := by
  decide

end OldLogZipper
